import Mathlib

/-!
A verification development for the schema-processing engine of the
multi-tools-server repository: the path-based mapper (`tools/schema_map.py`),
the validator (`tools/schema_validate.py`) and the structural differ
(`tools/schema_diff.py`).

JSON values are modelled by the inductive type `Json`.  Python dictionaries
are modelled as association lists in insertion order (`List (String × Json)`),
which is exactly the observable behaviour of Python 3.7+ dicts: assignment of
a fresh key appends, assignment of an existing key updates in place, and
iteration follows that order.  JSON numbers are modelled as integers only; no
statement below involves non-integral numbers.  Python runtime errors that
the tools can raise (and do not catch) are modelled with `Except PyErr`.
-/

inductive Json where
  | null
  | bool (b : Bool)
  | int (n : Int)
  | str (s : String)
  | arr (xs : List Json)
  | obj (kvs : List (String × Json))
deriving Repr

/-- Uncaught Python runtime errors that the embedded code can raise. -/
inductive PyErr where
  | typeError
  | attributeError
deriving Repr, DecidableEq

/-! ### Dictionary primitives (Python `dict` on string keys) -/

/-- `d.get(k)` / `k in d` support: first binding of `k` (Python dicts never
hold duplicate keys, so "first" is exact). -/
def alistLookup (kvs : List (String × Json)) (k : String) : Option Json :=
  match kvs with
  | [] => none
  | (k', v) :: rest => if k' = k then some v else alistLookup rest k

/-- `d[k] = v`: update in place if the key exists, else append (Python dict
insertion-order semantics). -/
def alistSet (kvs : List (String × Json)) (k : String) (v : Json) :
    List (String × Json) :=
  match kvs with
  | [] => [(k, v)]
  | (k', v') :: rest =>
      if k' = k then (k', v) :: rest else (k', v') :: alistSet rest k v

/-- `del d[k]`: removes the first binding of `k`. -/
def alistDel (kvs : List (String × Json)) (k : String) : List (String × Json) :=
  match kvs with
  | [] => []
  | (k', v') :: rest =>
      if k' = k then rest else (k', v') :: alistDel rest k

def alistKeys (kvs : List (String × Json)) : List String := kvs.map (·.1)

/-! ### Python string helpers -/

/-- `path.split(".")` on the character level: splitting never drops empty
segments (`"".split(".") == [""]`, `".a".split(".") == ["", "a"]`). -/
def splitDotChars : List Char → List (List Char)
  | [] => [[]]
  | c :: rest =>
      if c = '.' then [] :: splitDotChars rest
      else
        match splitDotChars rest with
        | seg :: segs => (c :: seg) :: segs
        | [] => [[c]]

def splitOnDot (s : String) : List String :=
  (splitDotChars s.data).map String.mk

/-- `path.startswith(".")`. -/
def startsWithDot (s : String) : Bool :=
  match s.data with
  | c :: _ => c = '.'
  | [] => false

/-- `path.endswith(".")`. -/
def endsWithDot (s : String) : Bool :=
  match s.data.getLast? with
  | some c => c = '.'
  | none => false

def listAll (p : α → Bool) : List α → Bool
  | [] => true
  | x :: l => p x && listAll p l

/-! ### Python string ordering (`<` on `str` is code-point lexicographic) -/

def charListLt : List Char → List Char → Bool
  | _, [] => false
  | [], _ :: _ => true
  | c :: cs, d :: ds =>
      if c.toNat < d.toNat then true
      else if c.toNat = d.toNat then charListLt cs ds
      else false

def strLt (a b : String) : Bool := charListLt a.data b.data

def strLe (a b : String) : Bool := strLt a b || a == b

/-! ### Python `sorted`

CPython's `sorted` is a stable sort.  A stable sort is fully determined by
the (total pre)order used, so it is modelled by a stable insertion sort:
an element is inserted before the first already-placed element it is
strictly below, hence after every element it ties with. -/

def insertLe (le : α → α → Bool) (a : α) : List α → List α
  | [] => [a]
  | b :: l => if le a b then a :: b :: l else b :: insertLe le a l

def sortByLe (le : α → α → Bool) : List α → List α
  | [] => []
  | a :: l => insertLe le a (sortByLe le l)

/-- A lexicographic step: compare a string key, break ties with `rest`
(used to state facts about the `(path, code, message)` issue order and the
`(source, target)` rename order). -/
def lexStepB (f : α → String) (rest : α → α → Bool) (a b : α) : Bool :=
  strLt (f a) (f b) || ((f a == f b) && rest a b)

/-!
## `tools/schema_map.py`
-/

/-- `str.isidentifier` restricted to its ASCII fragment (letters, digits,
underscore; not starting with a digit).  Every path appearing in the claims
is ASCII; the Unicode identifier categories accepted by Python beyond this
fragment are not modelled. -/
def isIdentChar (c : Char) : Bool :=
  c.isAlpha || c.isDigit || c = '_'

def isIdentStart (c : Char) : Bool :=
  c.isAlpha || c = '_'

def pyIsIdentifier (s : String) : Bool :=
  match s.data with
  | [] => false
  | c :: rest => isIdentStart c && listAll isIdentChar rest

/-- `_is_valid_path` (schema_map.py:64-68). -/
def isValidPath (path : String) : Bool :=
  if path = "" || startsWithDot path || endsWithDot path then false
  else listAll pyIsIdentifier (splitOnDot path)

/-- `_get_path` (schema_map.py:71-77), after `path.split(".")`. -/
def getPathParts (data : Json) (parts : List String) : Option Json :=
  match parts with
  | [] => some data
  | key :: rest =>
      match data with
      | .obj kvs =>
          match alistLookup kvs key with
          | some v => getPathParts v rest
          | none => none
      | _ => none

/-- `_get_path` returning Python's `(found, value)` pair as an `Option`. -/
def getPath (data : List (String × Json)) (path : String) : Option Json :=
  getPathParts (.obj data) (splitOnDot path)

/-- `_set_path` (schema_map.py:80-85) on the list of path parts.  Python
walks `current = current.setdefault(key, {})` for every part but the last
and then assigns `current[last] = value`; when an intermediate value exists
but is not a dict, `setdefault` raises `AttributeError`, and assigning into
a non-dict final container raises `TypeError`.  Both exceptions escape the
tool uncaught, so the function is `Except`-valued. -/
def setPathParts (data : Json) (parts : List String) (value : Json) :
    Except PyErr Json :=
  match parts with
  | [] => .ok data
  | [key] =>
      match data with
      | .obj kvs => .ok (.obj (alistSet kvs key value))
      | _ => .error .typeError
  | key :: rest =>
      match data with
      | .obj kvs =>
          let child := (alistLookup kvs key).getD (.obj [])
          match setPathParts child rest value with
          | .ok child' => .ok (.obj (alistSet kvs key child'))
          | .error e => .error e
      | _ => .error .attributeError

def setPath (data : List (String × Json)) (path : String) (value : Json) :
    Except PyErr (List (String × Json)) :=
  match setPathParts (.obj data) (splitOnDot path) value with
  | .ok (.obj kvs) => .ok kvs
  | .ok _ => .error .typeError
  | .error e => .error e

/-- `_delete_path` (schema_map.py:88-98): returns the updated tree and the
`bool` result; never raises. -/
def delPathParts (data : Json) (parts : List String) : Json × Bool :=
  match parts with
  | [] => (data, false)
  | [key] =>
      match data with
      | .obj kvs =>
          match alistLookup kvs key with
          | some _ => (.obj (alistDel kvs key), true)
          | none => (data, false)
      | _ => (data, false)
  | key :: rest =>
      match data with
      | .obj kvs =>
          match alistLookup kvs key with
          | some v =>
              let (v', deleted) := delPathParts v rest
              (.obj (alistSet kvs key v'), deleted)
          | none => (data, false)
      | _ => (data, false)

def delPath (data : List (String × Json)) (path : String) :
    List (String × Json) × Bool :=
  match delPathParts (.obj data) (splitOnDot path) with
  | (.obj kvs, b) => (kvs, b)
  | (_, b) => (data, b)

/-- The `Mapping` input model (schema_map.py:17-23).  `rename` and
`defaults` are dicts in insertion order; `drop` and `require` are lists. -/
structure Mapping where
  rename : List (String × String) := []
  drop : List String := []
  defaults : List (String × Json) := []
  require : List String := []

/-- `_validate_paths` (schema_map.py:101-114): for each rename pair in
insertion order the source is checked and then the target; then `drop`,
then the `defaults` keys, then `require`, each in input order; the first
invalid path is returned. -/
def validatePathsRename (pairs : List (String × String)) : Option String :=
  match pairs with
  | [] => none
  | (source, target) :: rest =>
      if !isValidPath source || !isValidPath target then
        some (if !isValidPath source then source else target)
      else validatePathsRename rest

def firstInvalid (paths : List String) : Option String :=
  match paths with
  | [] => none
  | p :: rest => if !isValidPath p then some p else firstInvalid rest

def validatePaths (m : Mapping) : Option String :=
  match validatePathsRename m.rename with
  | some p => some p
  | none =>
      match firstInvalid m.drop with
      | some p => some p
      | none =>
          match firstInvalid (m.defaults.map (·.1)) with
          | some p => some p
          | none => firstInvalid m.require

/-- Python truthiness of an `Optional[str]`, as tested by `if x:` guards
(schema_map.py:134, schema_validate.py:64/68/72/153, schema_diff.py:100/111/
123/183): `None` and the empty string are falsy.  The guard sites below keep
the value only when it is truthy. -/
def pyTruthy : Option String → Option String
  | some s => if s = "" then none else some s
  | none => none

/-- A per-record mapper error (`{"path","code","message"}`). -/
structure Issue where
  path : String
  code : String
  message : String
deriving Repr, DecidableEq

/-- Key order used by `_sorted_errors` / `_sorted_issues`:
lexicographic on `(path, code, message)`. -/
def issueLe (a b : Issue) : Bool :=
  strLt a.path b.path ||
    (a.path == b.path &&
      (strLt a.code b.code ||
        (a.code == b.code && strLe a.message b.message)))

/-- `_sorted_errors` (schema_map.py:117-118). -/
def sortedErrors (errors : List Issue) : List Issue :=
  sortByLe issueLe errors

/-- A structured error, without the derived sha-256 `fingerprint` field
(no claim mentions fingerprints). -/
structure StructuredError where
  eclass : String
  code : String
  message : String
  severity : String
  path : String
  http_status : Nat
deriving Repr, DecidableEq

/-- `_structured_error` of schema_map.py:39-50 (class is always
`INPUT_INVALID`, severity `low`, stage `validate`, http 400 by default). -/
def smStructuredError (code message path : String) : StructuredError :=
  { eclass := "INPUT_INVALID", code := code, message := message,
    severity := "low", path := path, http_status := 400 }

/-- The `result` object assembled at schema_map.py:174-179.  `meta` models
`meta.applied` (`none` when the source returns `"meta": null`). -/
structure MapResult where
  ok : Bool
  data : Option (List (String × Json))
  meta : Option (List String)
  errors : List Issue
deriving Repr

/-- The uniform envelope: `_envelope_ok` gives `ok:true` with a result,
`_envelope_fail` an `ok:false` JSONResponse with an error and a status. -/
inductive Envelope (R : Type) where
  | ok (result : R)
  | fail (http_status : Nat) (error : StructuredError)
deriving Repr

/-- One rename step of the loop at schema_map.py:143-150: state is
`(output, errors, applied)`. -/
def renameStep (st : List (String × Json) × List Issue × List String)
    (pair : String × String) :
    Except PyErr (List (String × Json) × List Issue × List String) :=
  let (output, errors, applied) := st
  let (source, target) := pair
  match getPath output source with
  | none =>
      .ok (output,
        errors ++ [⟨source, "SOURCE_PATH_MISSING", "Rename source path is missing."⟩],
        applied)
  | some value =>
      match setPath output target value with
      | .error e => .error e
      | .ok output' =>
          let (output'', _) := delPath output' source
          .ok (output'', errors, applied ++ ["rename:" ++ source ++ "->" ++ target])

def renameLoop (st : List (String × Json) × List Issue × List String) :
    List (String × String) →
    Except PyErr (List (String × Json) × List Issue × List String)
  | [] => .ok st
  | pair :: rest =>
      match renameStep st pair with
      | .error e => .error e
      | .ok st' => renameLoop st' rest

/-- One defaults step (schema_map.py:153-157). -/
def defaultsStep (defaults : List (String × Json))
    (st : List (String × Json) × List String) (target : String) :
    Except PyErr (List (String × Json) × List String) :=
  let (output, applied) := st
  match getPath output target with
  | some _ => .ok (output, applied)
  | none =>
      match setPath output target ((alistLookup defaults target).getD .null) with
      | .error e => .error e
      | .ok output' => .ok (output', applied ++ ["defaults:" ++ target])

def defaultsLoop (defaults : List (String × Json))
    (st : List (String × Json) × List String) :
    List String → Except PyErr (List (String × Json) × List String)
  | [] => .ok st
  | target :: rest =>
      match defaultsStep defaults st target with
      | .error e => .error e
      | .ok st' => defaultsLoop defaults st' rest

/-- The drop loop (schema_map.py:160-162); `_delete_path` never raises. -/
def dropLoop (st : List (String × Json) × List String) :
    List String → List (String × Json) × List String
  | [] => st
  | path :: rest =>
      let (output, applied) := st
      match delPath output path with
      | (output', true) => dropLoop (output', applied ++ ["drop:" ++ path]) rest
      | (output', false) => dropLoop (output', applied) rest

/-- The require loop (schema_map.py:165-168). -/
def requireLoop (output : List (String × Json)) (errors : List Issue) :
    List String → List Issue
  | [] => errors
  | path :: rest =>
      match getPath output path with
      | some _ => requireLoop output errors rest
      | none =>
          requireLoop output
            (errors ++ [⟨path, "REQUIRED_MISSING", "Required path is missing."⟩]) rest

/-- Sort key for the rename pairs: `key=lambda item: (item[0], item[1])`. -/
def renamePairLe (a b : String × String) : Bool :=
  strLt a.1 b.1 || (a.1 == b.1 && strLe a.2 b.2)

/-- `schema_map` (schema_map.py:121-181) after the pydantic input model has
accepted the payload: `data` is the input object, `mapping` the rule set,
`mode` the mode string.  The body deep-copies `data` and then runs the
rename / defaults / drop / require loops, each over a sorted view of its
rule category; uncaught `_set_path` exceptions propagate as `.error`.
`if invalid_path:` (schema_map.py:134) is a truthiness test, so a returned
empty-string path does not abort. -/
def schemaMap (data : List (String × Json)) (mapping : Mapping)
    (mode : String) : Except PyErr (Envelope MapResult) :=
  if mode ≠ "strict" ∧ mode ≠ "permissive" then
    .ok (.fail 400 (smStructuredError "MODE_INVALID" "Mode must be strict or permissive." "mode"))
  else
    match pyTruthy (validatePaths mapping) with
    | some p =>
        .ok (.fail 400
          (smStructuredError "MAPPING_INVALID" ("Invalid path: " ++ p ++ ".") p))
    | none =>
        match renameLoop (data, [], []) (sortByLe renamePairLe mapping.rename) with
        | .error e => .error e
        | .ok (out₁, errors₁, applied₁) =>
            match defaultsLoop mapping.defaults (out₁, applied₁)
                (sortByLe strLe (mapping.defaults.map (·.1))) with
            | .error e => .error e
            | .ok (out₂, applied₂) =>
                let (out₃, applied₃) :=
                  dropLoop (out₂, applied₂) (sortByLe strLe mapping.drop)
                let errors₂ :=
                  requireLoop out₃ errors₁ (sortByLe strLe mapping.require)
                let ordered := sortedErrors errors₂
                let strict := mode = "strict"
                let resultOk := if strict then ordered.isEmpty else true
                .ok (.ok
                  { ok := resultOk,
                    data := if resultOk then some out₃ else none,
                    meta := if resultOk then some applied₃ else none,
                    errors := ordered })

/-!
## `tools/schema_validate.py`
-/

/-- The Python numeric interpretation of a JSON value (`bool` is a subclass
of `int`): used both by `==` and by `<`. -/
def numVal : Json → Option Int
  | .int n => some n
  | .bool b => some (if b then 1 else 0)
  | _ => none

mutual
/-- Python value equality (`==`) on JSON values: `True == 1`, `False == 0`,
dict equality ignores entry order.  The association lists compared here stand
for Python dicts and therefore never hold duplicate keys. -/
def pyEq (a b : Json) : Bool :=
  match numVal a, numVal b with
  | some x, some y => x == y
  | _, _ =>
      match a, b with
      | .null, .null => true
      | .str s, .str t => s == t
      | .arr xs, .arr ys => pyEqList xs ys
      | .obj kvs, .obj kvs' => kvs.length == kvs'.length && pyEqObj kvs kvs'
      | _, _ => false

def pyEqList : List Json → List Json → Bool
  | [], [] => true
  | x :: xs, y :: ys => pyEq x y && pyEqList xs ys
  | _, _ => false

def pyEqObj : List (String × Json) → List (String × Json) → Bool
  | [], _ => true
  | (k, v) :: rest, other =>
      (match alistLookup other k with
       | some w => pyEq v w
       | none => false) && pyEqObj rest other
end

mutual
/-- Python `<`-comparison on JSON values as an `Ordering`; `.error ()` models
the `TypeError` raised on unorderable operands (`None`, dicts, and any
cross-class pair outside number/number). -/
def pyCompare (a b : Json) : Except Unit Ordering :=
  match numVal a, numVal b with
  | some x, some y => .ok (if x < y then .lt else if x = y then .eq else .gt)
  | _, _ =>
      match a, b with
      | .str s, .str t =>
          .ok (if strLt s t then .lt else if s = t then .eq else .gt)
      | .arr xs, .arr ys => pyCompareList xs ys
      | _, _ => .error ()

def pyCompareList : List Json → List Json → Except Unit Ordering
  | [], [] => .ok .eq
  | [], _ :: _ => .ok .lt
  | _ :: _, [] => .ok .gt
  | x :: xs, y :: ys =>
      match pyCompare x y with
      | .ok .eq => pyCompareList xs ys
      | r => r
end

/-- All pairs of elements drawn from the list are `<`-comparable.  CPython's
`sorted` raises `TypeError` exactly when it compares an unorderable pair; it
compares every adjacent input pair while detecting runs, so on the
class-partitioned values that can reach a `sorted` call in this code base a
crash happens exactly when some pair is unorderable. -/
def comparableAll (x : Json) : List Json → Bool
  | [] => true
  | y :: ys => (pyCompare x y).isOk && comparableAll x ys

def pairwiseComp : List Json → Bool
  | [] => true
  | x :: xs => comparableAll x xs && pairwiseComp xs

/-- The `le` underlying Python `sorted` on comparable values. -/
def pyLeB (a b : Json) : Bool :=
  match pyCompare a b with
  | .ok .gt => false
  | _ => true

def charLeB (c d : Char) : Bool := c.toNat ≤ d.toNat

/-- `sorted(x)` for the `required` value of a schema node
(schema_validate.py:86): Python iterates any iterable — a list is sorted
elementwise (raising `TypeError` on unorderable pairs), a string yields its
characters sorted, a dict yields its keys sorted, and non-iterables raise
`TypeError`. -/
def pySortedRequired : Json → Except PyErr (List Json)
  | .arr xs =>
      if pairwiseComp xs then .ok (sortByLe pyLeB xs) else .error .typeError
  | .str s =>
      .ok ((sortByLe charLeB s.data).map (fun c => .str (String.mk [c])))
  | .obj kvs => .ok ((sortByLe strLe (alistKeys kvs)).map .str)
  | _ => .error .typeError

/-- `str(x)` for the scalar values that can be interpolated into an issue
path (`f"{path}.{key}"`). -/
def pyStr : Json → String
  | .null => "None"
  | .bool true => "True"
  | .bool false => "False"
  | .int n => toString n
  | .str s => s
  | .arr _ => ""
  | .obj _ => ""

/-- One `required` key check (schema_validate.py:86-88): `key not in data`
hashes the key, so list/dict keys raise `TypeError`. -/
def requiredKeyIssues (dkvs : List (String × Json)) (path : String)
    (key : Json) : Except PyErr (List Issue) :=
  match key with
  | .arr _ => .error .typeError
  | .obj _ => .error .typeError
  | _ =>
      let present :=
        match key with
        | .str s => (alistKeys dkvs).contains s
        | _ => false
      if present then .ok []
      else
        .ok [⟨path ++ "." ++ pyStr key, "REQUIRED_MISSING", "Required field missing."⟩]

def requiredLoop (dkvs : List (String × Json)) (path : String) :
    List Json → Except PyErr (List Issue)
  | [] => .ok []
  | key :: rest =>
      match requiredKeyIssues dkvs path key with
      | .error e => .error e
      | .ok issues =>
          match requiredLoop dkvs path rest with
          | .error e => .error e
          | .ok more => .ok (issues ++ more)

/-- The additional-property scan (schema_validate.py:91-94): data keys in
sorted order, flagged when absent from the properties key set. -/
def additionalLoop (props dkvs : List (String × Json)) (path : String) :
    List String → List Issue
  | [] => []
  | key :: rest =>
      if (alistKeys props).contains key then additionalLoop props dkvs path rest
      else
        ⟨path ++ "." ++ key, "ADDITIONAL_PROPERTY", "Additional property not allowed."⟩ ::
          additionalLoop props dkvs path rest

/-- Helper for the recursion measures below. -/
theorem alistLookup_sizeOf {kvs : List (String × Json)} {k : String} {v : Json}
    (h : alistLookup kvs k = some v) : sizeOf v < sizeOf kvs := by
  induction kvs with
  | nil => simp [alistLookup] at h
  | cons hd tl ih =>
      obtain ⟨k', v'⟩ := hd
      rw [alistLookup] at h
      split at h
      · cases h; simp; omega
      · have := ih h
        simp at this ⊢
        omega

/-- `schema.get("type") == t` for a string literal `t`
(true only when the stored value is that exact string). -/
def typeIs (schema : List (String × Json)) (t : String) : Bool :=
  match alistLookup schema "type" with
  | some (.str s) => s == t
  | _ => false

mutual
/-- `_validate` (schema_validate.py:79-133).  The `type` of a node selects
the branch; `sorted(required)` and `key not in data` can raise uncaught
`TypeError`s, which the `Except` propagates in evaluation order. -/
def validateWalk (schema : List (String × Json)) (data : Json) (path : String) :
    Except PyErr (List Issue) :=
  if typeIs schema "object" then
    match data with
    | .obj dkvs =>
        match pySortedRequired ((alistLookup schema "required").getD (.arr [])) with
        | .error e => .error e
        | .ok reqKeys =>
            match requiredLoop dkvs path reqKeys with
            | .error e => .error e
            | .ok reqIssues =>
                match hp : alistLookup schema "properties" with
                | some (.obj props) =>
                    match propsLoop props dkvs path
                        (sortByLe strLe (alistKeys props)) with
                    | .error e => .error e
                    | .ok childIssues =>
                        .ok (reqIssues ++
                          additionalLoop props dkvs path
                            (sortByLe strLe (alistKeys dkvs)) ++ childIssues)
                | none =>
                    -- `schema.get("properties", {})`: the default empty dict
                    -- still drives the additional-property scan
                    .ok (reqIssues ++
                      additionalLoop [] dkvs path (sortByLe strLe (alistKeys dkvs)))
                | some _ => .ok reqIssues
    | _ => .ok [⟨path, "TYPE_MISMATCH", "Expected object."⟩]
  else if typeIs schema "string" then
    match data with
    | .str s =>
        let minIssues :=
          match alistLookup schema "minLength" with
          | some (.int n) =>
              if (s.data.length : Int) < n then
                [⟨path, "MIN_LENGTH", "Minimum length " ++ toString n ++ "."⟩]
              else []
          | some (.bool b) =>
              -- `isinstance(True, int)` holds in Python; `str(True) = "True"`
              if (s.data.length : Int) < (if b then 1 else 0) then
                [⟨path, "MIN_LENGTH", "Minimum length " ++ pyStr (.bool b) ++ "."⟩]
              else []
          | _ => []
        let maxIssues :=
          match alistLookup schema "maxLength" with
          | some (.int n) =>
              if (s.data.length : Int) > n then
                [⟨path, "MAX_LENGTH", "Maximum length " ++ toString n ++ "."⟩]
              else []
          | some (.bool b) =>
              if (s.data.length : Int) > (if b then 1 else 0) then
                [⟨path, "MAX_LENGTH", "Maximum length " ++ pyStr (.bool b) ++ "."⟩]
              else []
          | _ => []
        let enumIssues :=
          match alistLookup schema "enum" with
          | some (.arr allowed) =>
              if allowed.any (fun e => pyEq (.str s) e) then []
              else [⟨path, "ENUM_MISMATCH", "Value not in enum."⟩]
          | _ => []
        .ok (minIssues ++ maxIssues ++ enumIssues)
    | _ => .ok [⟨path, "TYPE_MISMATCH", "Expected string."⟩]
  else if typeIs schema "number" then
    match data with
    | .int _ => .ok []
    | _ => .ok [⟨path, "TYPE_MISMATCH", "Expected number."⟩]
  else if typeIs schema "integer" then
    match data with
    | .int _ => .ok []
    | _ => .ok [⟨path, "TYPE_MISMATCH", "Expected integer."⟩]
  else if typeIs schema "boolean" then
    match data with
    | .bool _ => .ok []
    | _ => .ok [⟨path, "TYPE_MISMATCH", "Expected boolean."⟩]
  else if typeIs schema "null" then
    match data with
    | .null => .ok []
    | _ => .ok [⟨path, "TYPE_MISMATCH", "Expected null."⟩]
  else if typeIs schema "array" then
    match data with
    | .arr xs =>
        match hi : alistLookup schema "items" with
        | some (.obj ickvs) => itemsLoop ickvs xs path 0
        | _ => .ok []
    | _ => .ok [⟨path, "TYPE_MISMATCH", "Expected array."⟩]
  else .ok [⟨path, "SCHEMA_INVALID", "Invalid schema type."⟩]
termination_by (sizeOf schema, 0)
decreasing_by
  all_goals simp_wf
  all_goals first
    | (have h1 := alistLookup_sizeOf hp; simp at h1; exact Prod.Lex.left _ _ (by omega))
    | (have h1 := alistLookup_sizeOf hi; simp at h1; exact Prod.Lex.left _ _ (by omega))

def propsLoop (props dkvs : List (String × Json)) (path : String) :
    List String → Except PyErr (List Issue)
  | [] => .ok []
  | key :: rest =>
      match hc : alistLookup props key with
      | some (.obj ckvs) =>
          match alistLookup dkvs key with
          | some dval =>
              match validateWalk ckvs dval (path ++ "." ++ key) with
              | .error e => .error e
              | .ok childIssues =>
                  match propsLoop props dkvs path rest with
                  | .error e => .error e
                  | .ok more => .ok (childIssues ++ more)
          | none => propsLoop props dkvs path rest
      | _ => propsLoop props dkvs path rest
termination_by keys => (sizeOf props, 1 + keys.length)
decreasing_by
  all_goals simp_wf
  all_goals first
    | (have h1 := alistLookup_sizeOf hc; simp at h1; exact Prod.Lex.left _ _ (by omega))
    | (exact Prod.Lex.right _ (by omega))

def itemsLoop (ickvs : List (String × Json)) (elems : List Json)
    (path : String) (index : Nat) : Except PyErr (List Issue) :=
  match elems with
  | [] => .ok []
  | x :: rest =>
      match validateWalk ickvs x (path ++ "[" ++ toString index ++ "]") with
      | .error e => .error e
      | .ok childIssues =>
          match itemsLoop ickvs rest path (index + 1) with
          | .error e => .error e
          | .ok more => .ok (childIssues ++ more)
termination_by (sizeOf ickvs, 1 + elems.length)
decreasing_by
  all_goals simp_wf
  all_goals exact Prod.Lex.right _ (by omega)
end

/-- One character of `json.dumps(..., ensure_ascii=False)` output: `"` and
`\` are escaped, control characters use the short escapes or `\u00XX`, and
everything else (including non-ASCII) is emitted verbatim. -/
def hexDigitChar (n : Nat) : Char :=
  if n < 10 then Char.ofNat (48 + n) else Char.ofNat (97 + n - 10)

def escapeChar (c : Char) : List Char :=
  if c = '"' then ['\\', '"']
  else if c = '\\' then ['\\', '\\']
  else if c = '\n' then ['\\', 'n']
  else if c = '\t' then ['\\', 't']
  else if c = '\r' then ['\\', 'r']
  else if c.val = 8 then ['\\', 'b']
  else if c.val = 12 then ['\\', 'f']
  else if c.val < 32 then
    ['\\', 'u', '0', '0', hexDigitChar (c.val.toNat / 16), hexDigitChar (c.val.toNat % 16)]
  else [c]

def escapeString (s : String) : String :=
  .mk ((s.data.map escapeChar).flatten)

def dumpsStrLit (s : String) : String :=
  "\"" ++ escapeString s ++ "\""

mutual
/-- `json.dumps(x, ensure_ascii=False)` with CPython's default separators
`", "` and `": "`. -/
def dumps : Json → String
  | .null => "null"
  | .bool true => "true"
  | .bool false => "false"
  | .int n => toString n
  | .str s => dumpsStrLit s
  | .arr xs => "[" ++ dumpsList xs ++ "]"
  | .obj kvs => "\x7b" ++ dumpsObj kvs ++ "\x7d"

def dumpsList : List Json → String
  | [] => ""
  | [x] => dumps x
  | x :: y :: rest => dumps x ++ ", " ++ dumpsList (y :: rest)

def dumpsObj : List (String × Json) → String
  | [] => ""
  | [(k, v)] => dumpsStrLit k ++ ": " ++ dumps v
  | (k, v) :: p :: rest =>
      dumpsStrLit k ++ ": " ++ dumps v ++ ", " ++ dumpsObj (p :: rest)
end

/-- Entry order used by `sort_keys=True` (and by the canonical form of an
object below): ascending key. -/
def pairKeyLe (a b : String × Json) : Bool := strLe a.1 b.1

mutual
/-- The canonical form of a JSON value: every object's entries are put in
ascending key order, recursively.  Two values that are equal as JSON data
(objects compared as finite maps, arrays position-wise) have the same
canonical form, and `dumps` of the canonical form is exactly
`json.dumps(x, sort_keys=True, ensure_ascii=False)`. -/
def canon : Json → Json
  | .null => .null
  | .bool b => .bool b
  | .int n => .int n
  | .str s => .str s
  | .arr xs => .arr (canonList xs)
  | .obj kvs => .obj (sortByLe pairKeyLe (canonObjList kvs))

def canonList : List Json → List Json
  | [] => []
  | x :: xs => canon x :: canonList xs

def canonObjList : List (String × Json) → List (String × Json)
  | [] => []
  | (k, v) :: kvs => (k, canon v) :: canonObjList kvs
end

/-- `json.dumps(x, sort_keys=True, ensure_ascii=False)`. -/
def dumpsSorted (j : Json) : String := dumps (canon j)

/-- `_schema_size` (schema_validate.py:43-44):
`len(json.dumps(data, ensure_ascii=False))` in characters. -/
def schemaSize (data : Json) : Nat := (dumps data).data.length

def MAX_DATA_LENGTH : Nat := 20000

/-- The allowed keyword set of `_unsupported_schema`
(schema_validate.py:49-57). -/
def svAllowed : List String :=
  ["type", "properties", "required", "minLength", "maxLength", "enum", "items"]

mutual
/-- `_unsupported_schema` (schema_validate.py:47-76): scans dict entries in
declared order; an unknown key is returned at once (even the empty string),
a `properties` dict is recursed into child by child, an `items` value is
recursed into, and lists are scanned elementwise.  Each inner
`if unsupported:` (lines 62, 66, 72) is a truthiness test, so an
empty-string key reported by a child scan is skipped and scanning
continues. -/
def unsupVal : Json → Option String
  | .obj kvs => unsupValEntries kvs
  | .arr xs => unsupValList xs
  | _ => none

def unsupValEntries : List (String × Json) → Option String
  | [] => none
  | (k, v) :: rest =>
      if !svAllowed.contains k then some k
      else
        match
          (if k = "properties" then
            match v with
            | .obj props => unsupValProps props
            | _ => none
          else none) with
        | some u => some u
        | none =>
            match (if k = "items" then pyTruthy (unsupVal v) else none) with
            | some u => some u
            | none => unsupValEntries rest

def unsupValProps : List (String × Json) → Option String
  | [] => none
  | (_, child) :: rest =>
      match pyTruthy (unsupVal child) with
      | some u => some u
      | none => unsupValProps rest

def unsupValList : List Json → Option String
  | [] => none
  | x :: xs =>
      match pyTruthy (unsupVal x) with
      | some u => some u
      | none => unsupValList xs
end

/-- `_structured_error` of schema_validate.py:29-40 (`path` is always the
default `""` at the call sites below). -/
def svStructuredError (code message : String) : StructuredError :=
  { eclass := if code = "SCHEMA_UNSUPPORTED" then "SCHEMA_UNSUPPORTED" else "INPUT_INVALID",
    code := code, message := message, severity := "low", path := "",
    http_status := 400 }

/-- The validator's `result` object (schema_validate.py:169-173);
`issue_count` models `summary.issue_count`. -/
structure ValidateResult where
  ok : Bool
  issues : List Issue
  issue_count : Nat
deriving Repr

/-- `_sorted_issues` (schema_validate.py:136-137). -/
def sortedIssues (issues : List Issue) : List Issue :=
  sortByLe issueLe issues

/-- `schema_validate` (schema_validate.py:140-175) after the pydantic input
model has accepted the payload (`schema` a dict, `data` any value): the data
size ceiling is checked first, then the schema keyword scan, then the walk;
issues come back sorted by `(path, code, message)`.
`if unsupported_key:` (schema_validate.py:153) is a truthiness test, so a
returned empty-string keyword does not reject the schema. -/
def schemaValidate (schema : List (String × Json)) (data : Json) :
    Except PyErr (Envelope ValidateResult) :=
  if schemaSize data > MAX_DATA_LENGTH then
    .ok (.fail 400 (svStructuredError "DATA_TOO_LARGE" "Input data is too large."))
  else
    match pyTruthy (unsupVal (.obj schema)) with
    | some k =>
        .ok (.fail 400
          (svStructuredError "SCHEMA_UNSUPPORTED" ("Unsupported schema keyword: " ++ k ++ ".")))
    | none =>
        -- the `isinstance(data.schema, dict)` re-check is vacuous for the
        -- typed input model
        match validateWalk schema data "$" with
        | .error e => .error e
        | .ok issues =>
            let ordered := sortedIssues issues
            .ok (.ok
              { ok := ordered.isEmpty, issues := ordered,
                issue_count := ordered.length })

/-!
## `tools/schema_diff.py`
-/

/-- The `Options` input model (schema_diff.py:21-27), all defaulting to
true. -/
structure DiffOptions where
  compare_required : Bool := true
  compare_type : Bool := true
  compare_enum : Bool := true
  ignore_order : Bool := true
deriving Repr

def sdSupportedTypes : List String :=
  ["object", "array", "string", "number", "integer", "boolean", "null"]

def sdAllowedKeys : List String := ["type", "properties", "required", "items", "enum"]

def sdForbiddenKeys : List String :=
  ["$ref", "anyOf", "oneOf", "allOf", "not", "if", "then", "else"]

/-- A JSON value is hashable in Python iff it is not a list or dict (among
JSON values). -/
def isHashable : Json → Bool
  | .arr _ => false
  | .obj _ => false
  | _ => true

/-- `set(xs)` keeps the first-inserted representative of each `==`-class. -/
def dedupPyEqGo (seen : List Json) : List Json → List Json
  | [] => []
  | x :: xs =>
      if seen.any (fun y => pyEq y x) then dedupPyEqGo seen xs
      else x :: dedupPyEqGo (seen ++ [x]) xs

def dedupPyEq (xs : List Json) : List Json := dedupPyEqGo [] xs

def isNumJson : Json → Bool
  | .int _ => true
  | .bool _ => true
  | _ => false

def isStrJson : Json → Bool
  | .str _ => true
  | _ => false

/-- After `set` deduplication only scalars remain (lists and dicts are
unhashable); `sorted` succeeds on them iff they are mutually orderable:
all number-like, or all strings, or fewer than two values. -/
def sortableScalars (xs : List Json) : Bool :=
  decide (xs.length ≤ 1) || listAll isNumJson xs || listAll isStrJson xs

/-- The fallback sort key `json.dumps(item, sort_keys=True, ensure_ascii=False)`
compared as a string. -/
def dumpsKeyLe (a b : Json) : Bool := strLe (dumpsSorted a) (dumpsSorted b)

/-- `_normalize_enum` (schema_diff.py:74-80): with `ignore_order`,
`sorted(set(enum_values))` is attempted — `set` raises `TypeError` on any
unhashable value (list/dict) and `sorted` raises on unorderable survivors —
and on `TypeError` the ORIGINAL list (duplicates kept) is sorted by its
canonical JSON serialization instead.  Without `ignore_order`, the declared
order is returned verbatim. -/
def normalizeEnum (vals : List Json) (ignoreOrder : Bool) : List Json :=
  if ignoreOrder then
    if listAll isHashable vals then
      let d := dedupPyEq vals
      if sortableScalars d then sortByLe pyLeB d
      else sortByLe dumpsKeyLe vals
    else sortByLe dumpsKeyLe vals
  else vals

mutual
/-- `_find_unsupported` (schema_diff.py:83-126): entries in declared order;
forbidden or unknown keys are returned at once (even the empty string), and
each allowed key's value shape is checked (`type` must be a supported type
string, `properties` a dict whose children are scanned, `required` a list
of strings, `items` a dict that is scanned, `enum` a list).  Each inner
`if unsupported:` (lines 100, 111, 123) is a truthiness test, so an
empty-string key reported by a child scan is skipped. -/
def findUnsupported : Json → Option String
  | .obj kvs => findUnsupEntries kvs
  | .arr xs => findUnsupList xs
  | _ => none

def findUnsupEntries : List (String × Json) → Option String
  | [] => none
  | (k, v) :: rest =>
      if sdForbiddenKeys.contains k then some k
      else if !sdAllowedKeys.contains k then some k
      else if k = "type" then
        match v with
        | .str s => if sdSupportedTypes.contains s then findUnsupEntries rest else some k
        | _ => some k
      else if k = "properties" then
        match v with
        | .obj props =>
            match findUnsupProps props with
            | some u => some u
            | none => findUnsupEntries rest
        | _ => some k
      else if k = "required" then
        match v with
        | .arr xs => if listAll isStrJson xs then findUnsupEntries rest else some k
        | _ => some k
      else if k = "items" then
        match v with
        | .obj ikvs =>
            match pyTruthy (findUnsupported (.obj ikvs)) with
            | some u => some u
            | none => findUnsupEntries rest
        | _ => some k
      else if k = "enum" then
        match v with
        | .arr _ => findUnsupEntries rest
        | _ => some k
      else findUnsupEntries rest

def findUnsupProps : List (String × Json) → Option String
  | [] => none
  | (_, child) :: rest =>
      match pyTruthy (findUnsupported child) with
      | some u => some u
      | none => findUnsupProps rest

def findUnsupList : List Json → Option String
  | [] => none
  | x :: xs =>
      match pyTruthy (findUnsupported x) with
      | some u => some u
      | none => findUnsupList xs
end

/-- The per-path node summary stored by `_walk_schema`
(schema_diff.py:142-147). -/
structure PathSummary where
  type : String
  required : Option Bool
  enum : Option (List Json)
deriving Repr

def jsonIsStr (j : Json) (t : String) : Bool :=
  match j with
  | .str s => s == t
  | _ => false

/-- Generic dict primitives for summary maps. -/
def smLookup (kvs : List (String × PathSummary)) (k : String) :
    Option PathSummary :=
  match kvs with
  | [] => none
  | (k', v) :: rest => if k' = k then some v else smLookup rest k

def smSet (kvs : List (String × PathSummary)) (k : String) (v : PathSummary) :
    List (String × PathSummary) :=
  match kvs with
  | [] => [(k, v)]
  | (k', v') :: rest =>
      if k' = k then (k', v) :: rest else (k', v') :: smSet rest k v

def smKeys (kvs : List (String × PathSummary)) : List String := kvs.map (·.1)

mutual
/-- `_walk_schema` (schema_diff.py:129-163) as the sequence of
`mapping[path] = node` assignments it performs, in order: the node's own
entry (skipped at the root), then the object children in declared property
order, then the array item child.  `required_set` membership uses Python
`==` on the `required` list's elements. -/
def walkEmit (schema : Json) (path : String) (requiredFlag : Option Bool)
    (ignoreOrder : Bool) : List (String × PathSummary) :=
  match schema with
  | .obj kvs =>
      let nodeType : Json := (alistLookup kvs "type").getD (.str "unknown")
      let enumList : Option (List Json) :=
        match alistLookup kvs "enum" with
        | some (.arr vals) => some (normalizeEnum vals ignoreOrder)
        | _ => none
      let selfEntry : List (String × PathSummary) :=
        if path = "" then []
        else
          [(path,
            { type := match nodeType with | .str s => s | _ => "unknown",
              required := requiredFlag, enum := enumList })]
      let requiredList : List Json :=
        match alistLookup kvs "required" with
        | some (.arr xs) => xs
        | _ => []
      let objChildren :=
        if jsonIsStr nodeType "object" then
          match hp : alistLookup kvs "properties" with
          | some (.obj props) => walkProps props path requiredList ignoreOrder
          | _ => []
        else []
      let arrChild :=
        if jsonIsStr nodeType "array" then
          match hi : alistLookup kvs "items" with
          | some (.obj ikvs) =>
              walkEmit (.obj ikvs)
                (if path = "" then "[]" else path ++ "[]") none ignoreOrder
          | _ => []
        else []
      selfEntry ++ objChildren ++ arrChild
  | _ => []
termination_by (sizeOf schema, 1)
decreasing_by
  all_goals simp_wf
  all_goals first
    | (have h1 := alistLookup_sizeOf hp; simp at h1; exact Prod.Lex.left _ _ (by omega))
    | (have h1 := alistLookup_sizeOf hi; simp at h1; exact Prod.Lex.left _ _ (by omega))

def walkProps (props : List (String × Json)) (path : String)
    (requiredList : List Json) (ignoreOrder : Bool) :
    List (String × PathSummary) :=
  match props with
  | [] => []
  | (key, child) :: rest =>
      (match child with
       | .obj ckvs =>
           walkEmit (.obj ckvs)
             (if path = "" then key else path ++ "." ++ key)
             (some (requiredList.any (fun e => pyEq (.str key) e))) ignoreOrder
       | _ => []) ++ walkProps rest path requiredList ignoreOrder
termination_by (sizeOf props, 0)
decreasing_by
  all_goals simp_wf
  all_goals exact Prod.Lex.left _ _ (by omega)
end

def buildMapFrom (acc : List (String × PathSummary)) :
    List (String × PathSummary) → List (String × PathSummary)
  | [] => acc
  | (p, s) :: rest => buildMapFrom (smSet acc p s) rest

/-- The `mapping` dict built by a walk: assignments applied in emission
order (a later assignment to the same path overwrites in place). -/
def buildMap (entries : List (String × PathSummary)) :
    List (String × PathSummary) :=
  buildMapFrom [] entries

/-- `str(x)` for a `required` flag (`True` / `False` / `None`). -/
def fmtOptBool : Option Bool → String
  | some true => "True"
  | some false => "False"
  | none => "None"

/-- Python `repr` for the JSON values that can appear inside a `detail`
string (`f"enum:{old} -> {new}"` formats a list with `repr`ed elements).
Strings are single-quoted (double-quoted when they contain a single quote
but no double quote); `\\`, the quote, and the common control characters
are escaped.  The `\xHH` escapes for other non-printables are not modelled;
no claim observes them. -/
def pyReprQuote (s : String) : Char :=
  if s.data.contains '\'' && !s.data.contains '"' then '"' else '\''

def pyReprChar (quote : Char) (c : Char) : List Char :=
  if c = '\\' then ['\\', '\\']
  else if c = quote then ['\\', quote]
  else if c = '\n' then ['\\', 'n']
  else if c = '\r' then ['\\', 'r']
  else if c = '\t' then ['\\', 't']
  else [c]

def pyReprStr (s : String) : String :=
  let q := pyReprQuote s
  .mk ([q] ++ (s.data.map (pyReprChar q)).flatten ++ [q])

mutual
def pyRepr : Json → String
  | .null => "None"
  | .bool true => "True"
  | .bool false => "False"
  | .int n => toString n
  | .str s => pyReprStr s
  | .arr xs => "[" ++ pyReprList xs ++ "]"
  | .obj kvs => "\x7b" ++ pyReprObj kvs ++ "\x7d"

def pyReprList : List Json → String
  | [] => ""
  | [x] => pyRepr x
  | x :: y :: rest => pyRepr x ++ ", " ++ pyReprList (y :: rest)

def pyReprObj : List (String × Json) → String
  | [] => ""
  | [(k, v)] => pyReprStr k ++ ": " ++ pyRepr v
  | (k, v) :: p :: rest =>
      pyReprStr k ++ ": " ++ pyRepr v ++ ", " ++ pyReprObj (p :: rest)
end

/-- `str(x)` for an `enum` summary field (`None` or a Python list). -/
def fmtOptEnum : Option (List Json) → String
  | none => "None"
  | some xs => pyRepr (.arr xs)

/-- One changed-path record (schema_diff.py:226-232): the same `detail`
string is attached to both the `before` and the `after` summary. -/
structure ChangedField where
  path : String
  before : PathSummary
  after : PathSummary
  detail : String
deriving Repr

/-- `_detail` joins the divergent-field descriptions with `"; "`. -/
def detailJoin : List String → String
  | [] => ""
  | [p] => p
  | p :: q :: rest => p ++ "; " ++ detailJoin (q :: rest)

structure DiffResult where
  added_fields : List (String × PathSummary)
  removed_fields : List (String × PathSummary)
  changed_fields : List ChangedField
deriving Repr

/-- Python `==` on the `enum` summary fields (`None` or lists of JSON
values). -/
def enumFieldEq : Option (List Json) → Option (List Json) → Bool
  | none, none => true
  | some xs, some ys => pyEqList xs ys
  | _, _ => false

def changedPartsOf (options : DiffOptions) (oldNode newNode : PathSummary) :
    List String :=
  (if options.compare_type && oldNode.type ≠ newNode.type then
    ["type:" ++ oldNode.type ++ " -> " ++ newNode.type] else []) ++
  (if options.compare_required && oldNode.required ≠ newNode.required then
    ["required:" ++ fmtOptBool oldNode.required ++ " -> " ++ fmtOptBool newNode.required]
   else []) ++
  (if options.compare_enum && !enumFieldEq oldNode.enum newNode.enum then
    ["enum:" ++ fmtOptEnum oldNode.enum ++ " -> " ++ fmtOptEnum newNode.enum] else [])

def changedLoop (options : DiffOptions)
    (oldMap newMap : List (String × PathSummary)) :
    List String → List ChangedField
  | [] => []
  | path :: rest =>
      let oldNode := (smLookup oldMap path).getD ⟨"unknown", none, none⟩
      let newNode := (smLookup newMap path).getD ⟨"unknown", none, none⟩
      let parts := changedPartsOf options oldNode newNode
      (if parts.isEmpty then []
       else
        [{ path := path, before := oldNode, after := newNode,
           detail := detailJoin parts }]) ++
        changedLoop options oldMap newMap rest

/-- The diff assembly run once both schemas are supported
(schema_diff.py:194-234): `added` takes the new-only paths sorted,
`removed` the old-only paths sorted, `changed` compares the common paths in
sorted order under the options flags. -/
def diffCore (oldSchema newSchema : List (String × Json))
    (options : DiffOptions) : DiffResult :=
  let oldMap := buildMap (walkEmit (.obj oldSchema) "" none options.ignore_order)
  let newMap := buildMap (walkEmit (.obj newSchema) "" none options.ignore_order)
  let addedPaths :=
    sortByLe strLe ((smKeys newMap).filter (fun p => !(smKeys oldMap).contains p))
  let removedPaths :=
    sortByLe strLe ((smKeys oldMap).filter (fun p => !(smKeys newMap).contains p))
  let commonPaths :=
    sortByLe strLe ((smKeys oldMap).filter (fun p => (smKeys newMap).contains p))
  { added_fields :=
      addedPaths.map (fun p => (p, (smLookup newMap p).getD ⟨"unknown", none, none⟩)),
    removed_fields :=
      removedPaths.map (fun p => (p, (smLookup oldMap p).getD ⟨"unknown", none, none⟩)),
    changed_fields := changedLoop options oldMap newMap commonPaths }

/-- `_structured_error` of schema_diff.py:30-41. -/
def sdStructuredError (code message path eclass : String) : StructuredError :=
  { eclass := eclass, code := code, message := message,
    severity := if eclass = "INPUT_INVALID" then "low" else "medium",
    path := path, http_status := 400 }

/-- `schema_diff` (schema_diff.py:170-234) after the pydantic input model
has accepted the payload; once both schemas pass `_find_unsupported` the
rest is total. -/
def schemaDiff (oldSchema newSchema : List (String × Json))
    (options : DiffOptions) : Envelope DiffResult :=
  -- `unsupported_key = unsupported_old or unsupported_new` followed by
  -- `if unsupported_key:` (schema_diff.py:182-183): `or` takes the first
  -- truthy operand, and the guard drops a falsy (`None` or `""`) result
  let unsupportedKey :=
    match pyTruthy (findUnsupported (.obj oldSchema)) with
    | some k => some k
    | none => pyTruthy (findUnsupported (.obj newSchema))
  match unsupportedKey with
  | some k =>
      .fail 400
        (sdStructuredError "SCHEMA_UNSUPPORTED"
          (if k = "$ref" then "ref is not supported" else "unsupported schema keyword")
          k "SCHEMA_UNSUPPORTED")
  | none => .ok (diffCore oldSchema newSchema options)

/-!
## Auxiliary definitions used by the statements below
-/

/-- `nodupStrKeys ks` holds when a dict's key list has no duplicates; every
association list standing for a Python dict satisfies it. -/
def nodupStrKeys : List String → Bool
  | [] => true
  | k :: rest => !rest.contains k && nodupStrKeys rest

mutual
/-- All objects in a JSON tree have duplicate-free keys (true of every value
that arrived through Python's JSON parser). -/
def jsonNodupRec : Json → Bool
  | .obj kvs => nodupStrKeys (kvs.map (·.1)) && jsonNodupObj kvs
  | .arr xs => jsonNodupList xs
  | _ => true

def jsonNodupList : List Json → Bool
  | [] => true
  | x :: xs => jsonNodupRec x && jsonNodupList xs

def jsonNodupObj : List (String × Json) → Bool
  | [] => true
  | (_, v) :: kvs => jsonNodupRec v && jsonNodupObj kvs
end

/-- The canonical form of a dict's entry list (`canon` on `.obj`). -/
def canonEntries (kvs : List (String × Json)) : List (String × Json) :=
  sortByLe pairKeyLe (canonObjList kvs)

/-- The flat sequence of paths `_validate_paths` examines, in the claimed
category order but with each rename pair contributing its source and then
its target in place. -/
def checkSeq (m : Mapping) : List String :=
  (m.rename.map (fun p => [p.1, p.2])).flatten ++ m.drop ++
    m.defaults.map (·.1) ++ m.require

/-- Modelled from the claim's words (C5): the first invalid path when
checking all rename source paths, then all rename target paths, then drop
paths, then defaults keys, then require paths. -/
def claimFirstInvalid (m : Mapping) : Option String :=
  match firstInvalid (m.rename.map (·.1)) with
  | some p => some p
  | none =>
      match firstInvalid (m.rename.map (·.2)) with
      | some p => some p
      | none =>
          match firstInvalid m.drop with
          | some p => some p
          | none =>
              match firstInvalid (m.defaults.map (·.1)) with
              | some p => some p
              | none => firstInvalid m.require

/-- Modelled from the claim's words (C7): the enum normalization the claim
describes for `ignore_order`, namely deduplication followed by a sort in
Python's native value order. -/
def claimNormalizedEnum (vals : List Json) : List Json :=
  sortByLe pyLeB (dedupPyEq vals)

/-!
## Order and sorting infrastructure
-/

theorem insertLe_perm (le : α → α → Bool) (a : α) (l : List α) :
    (insertLe le a l).Perm (a :: l) := by
  induction l with
  | nil => simp [insertLe]
  | cons b t ih =>
      rw [insertLe]
      split
      · exact List.Perm.refl _
      · exact (ih.cons b).trans (List.Perm.swap a b t)

theorem sortByLe_perm (le : α → α → Bool) (l : List α) :
    (sortByLe le l).Perm l := by
  induction l with
  | nil => exact List.Perm.refl _
  | cons a t ih =>
      exact (insertLe_perm le a (sortByLe le t)).trans (ih.cons a)

theorem mem_insertLe {le : α → α → Bool} {a x : α} {l : List α}
    (h : x ∈ insertLe le a l) : x = a ∨ x ∈ l := by
  have := (insertLe_perm le a l).mem_iff.mp h
  simpa using this

theorem insertLe_pairwise {le : α → α → Bool} {a : α} {l : List α}
    (htot : ∀ x ∈ l, le a x = true ∨ le x a = true)
    (htrans : ∀ x y z, x ∈ a :: l → y ∈ a :: l → z ∈ a :: l →
      le x y = true → le y z = true → le x z = true)
    (hl : l.Pairwise (le · · = true)) :
    (insertLe le a l).Pairwise (le · · = true) := by
  induction l with
  | nil => simp [insertLe]
  | cons b t ih =>
      rw [List.pairwise_cons] at hl
      obtain ⟨hb, ht⟩ := hl
      have lift : ∀ w, w ∈ a :: t → w ∈ a :: b :: t := by
        intro w hw
        rcases List.mem_cons.mp hw with rfl | hw'
        · exact List.mem_cons_self _ _
        · exact List.mem_cons_of_mem _ (List.mem_cons_of_mem _ hw')
      rw [insertLe]
      by_cases hab : le a b = true
      · rw [if_pos hab]
        refine List.pairwise_cons.mpr ⟨?_, List.pairwise_cons.mpr ⟨hb, ht⟩⟩
        intro x hx
        rcases List.mem_cons.mp hx with rfl | hx'
        · exact hab
        · exact htrans a b x (List.mem_cons_self _ _)
            (List.mem_cons_of_mem _ (List.mem_cons_self _ _))
            (List.mem_cons_of_mem _ (List.mem_cons_of_mem _ hx'))
            hab (hb x hx')
      · rw [if_neg hab]
        have hba : le b a = true :=
          (htot b (List.mem_cons_self _ _)).resolve_left hab
        refine List.pairwise_cons.mpr ⟨?_, ?_⟩
        · intro x hx
          rcases mem_insertLe hx with rfl | hx'
          · exact hba
          · exact hb x hx'
        · refine ih (fun x hx => htot x (List.mem_cons_of_mem _ hx)) ?_ ht
          intro x y z hx hy hz
          exact htrans x y z (lift x hx) (lift y hy) (lift z hz)

theorem sortByLe_pairwise {le : α → α → Bool} {l : List α}
    (htot : ∀ x ∈ l, ∀ y ∈ l, le x y = true ∨ le y x = true)
    (htrans : ∀ x y z, x ∈ l → y ∈ l → z ∈ l →
      le x y = true → le y z = true → le x z = true) :
    (sortByLe le l).Pairwise (le · · = true) := by
  induction l with
  | nil => simp [sortByLe]
  | cons a t ih =>
      rw [sortByLe]
      have hmem : ∀ x ∈ sortByLe le t, x ∈ t :=
        fun x hx => (sortByLe_perm le t).mem_iff.mp hx
      have lift : ∀ w, w ∈ a :: sortByLe le t → w ∈ a :: t := by
        intro w hw
        rcases List.mem_cons.mp hw with rfl | hw'
        · exact List.mem_cons_self _ _
        · exact List.mem_cons_of_mem _ (hmem w hw')
      refine insertLe_pairwise ?_ ?_ ?_
      · intro x hx
        exact htot a (List.mem_cons_self _ _) x
          (List.mem_cons_of_mem _ (hmem x hx))
      · intro x y z hx hy hz
        exact htrans x y z (lift x hx) (lift y hy) (lift z hz)
      · exact ih
          (fun x hx y hy => htot x (List.mem_cons_of_mem _ hx) y (List.mem_cons_of_mem _ hy))
          (fun x y z hx hy hz => htrans x y z (List.mem_cons_of_mem _ hx)
            (List.mem_cons_of_mem _ hy) (List.mem_cons_of_mem _ hz))

theorem sortByLe_of_pairwise {le : α → α → Bool} {l : List α}
    (hl : l.Pairwise (le · · = true)) : sortByLe le l = l := by
  induction l with
  | nil => rfl
  | cons a t ih =>
      rw [List.pairwise_cons] at hl
      obtain ⟨ha, ht⟩ := hl
      rw [sortByLe, ih ht]
      cases t with
      | nil => rfl
      | cons b u =>
          rw [insertLe, if_pos (ha b (by simp))]

theorem pairwise_perm_eq {le : α → α → Bool}
    (hanti : ∀ x y, le x y = true → le y x = true → x = y) :
    ∀ {l₁ l₂ : List α}, l₁.Perm l₂ →
      l₁.Pairwise (le · · = true) → l₂.Pairwise (le · · = true) → l₁ = l₂ := by
  intro l₁
  induction l₁ with
  | nil =>
      intro l₂ hp _ _
      exact (hp.nil_eq).symm ▸ rfl
  | cons a t ih =>
      intro l₂ hp h₁ h₂
      cases l₂ with
      | nil => exact absurd hp.symm.nil_eq (by simp)
      | cons b u =>
          rw [List.pairwise_cons] at h₁ h₂
          obtain ⟨ha, ht⟩ := h₁
          obtain ⟨hbu, hu⟩ := h₂
          have hab : a = b := by
            have hamem : a ∈ b :: u := hp.mem_iff.mp (by simp)
            have hbmem : b ∈ a :: t := hp.mem_iff.mpr (by simp)
            rcases List.mem_cons.mp hamem with h | h
            · exact h
            · rcases List.mem_cons.mp hbmem with h' | h'
              · exact h'.symm
              · exact hanti a b (ha b h') (hbu a h)
          subst hab
          have : t.Perm u := hp.cons_inv
          rw [ih this ht hu]

theorem sortByLe_eq_of_perm {le : α → α → Bool}
    (htot : ∀ x y : α, le x y = true ∨ le y x = true)
    (htrans : ∀ x y z : α, le x y = true → le y z = true → le x z = true)
    (hanti : ∀ x y : α, le x y = true → le y x = true → x = y)
    {l l' : List α} (hp : l.Perm l') : sortByLe le l = sortByLe le l' :=
  pairwise_perm_eq hanti
    ((sortByLe_perm le l).trans (hp.trans (sortByLe_perm le l').symm))
    (sortByLe_pairwise (fun x _ y _ => htot x y)
      (fun x y z _ _ _ => htrans x y z))
    (sortByLe_pairwise (fun x _ y _ => htot x y)
      (fun x y z _ _ _ => htrans x y z))

theorem insertLe_map {f : α → β} {le : α → α → Bool} {le' : β → β → Bool}
    (h : ∀ a b, le' (f a) (f b) = le a b) (a : α) (l : List α) :
    insertLe le' (f a) (l.map f) = (insertLe le a l).map f := by
  induction l with
  | nil => rfl
  | cons b t ih =>
      rw [List.map_cons, insertLe, insertLe, h a b]
      by_cases hab : le a b = true
      · rw [if_pos hab, if_pos hab, List.map_cons, List.map_cons]
      · rw [if_neg hab, if_neg hab, List.map_cons, ih]

theorem sortByLe_map {f : α → β} {le : α → α → Bool} {le' : β → β → Bool}
    (h : ∀ a b, le' (f a) (f b) = le a b) (l : List α) :
    sortByLe le' (l.map f) = (sortByLe le l).map f := by
  induction l with
  | nil => rfl
  | cons a t ih => rw [List.map_cons, sortByLe, sortByLe, ih, insertLe_map h]

theorem charListLt_irrefl (cs : List Char) : charListLt cs cs = false := by
  induction cs with
  | nil => rfl
  | cons c t ih => simp [charListLt, ih]

theorem charListLt_trans :
    ∀ {a b c : List Char}, charListLt a b = true → charListLt b c = true →
      charListLt a c = true := by
  intro a
  induction a with
  | nil =>
      intro b c hab hbc
      cases c with
      | nil =>
          cases b with
          | nil => exact hab
          | cons y ys => simp [charListLt] at hbc
      | cons z zs => simp [charListLt]
  | cons x xs ih =>
      intro b c hab hbc
      cases b with
      | nil => simp [charListLt] at hab
      | cons y ys =>
          cases c with
          | nil => simp [charListLt] at hbc
          | cons z zs =>
              rw [charListLt] at hab hbc ⊢
              by_cases h1 : x.toNat < y.toNat <;>
                by_cases h2 : y.toNat < z.toNat <;>
                  simp [h1, h2] at hab hbc ⊢
              · omega
              · obtain ⟨h3, -⟩ := hbc
                omega
              · obtain ⟨h3, -⟩ := hab
                omega
              · obtain ⟨h3, h4⟩ := hab
                obtain ⟨h5, h6⟩ := hbc
                refine Or.inr ⟨by omega, ih h4 h6⟩

theorem charListLt_tri (a b : List Char) :
    charListLt a b = true ∨ a = b ∨ charListLt b a = true := by
  induction a generalizing b with
  | nil =>
      cases b with
      | nil => right; left; rfl
      | cons y ys => left; rfl
  | cons x xs ih =>
      cases b with
      | nil => right; right; rfl
      | cons y ys =>
          by_cases h1 : x.toNat < y.toNat
          · left; simp [charListLt, h1]
          · by_cases h2 : y.toNat < x.toNat
            · right; right; simp [charListLt, h2]
            · have hxy : x = y := by
                have : x.toNat = y.toNat := by omega
                have hval : x.val = y.val := UInt32.toNat.inj this
                exact Char.ext hval
              subst hxy
              rcases ih ys with h | h | h
              · left; simp [charListLt, h]
              · right; left; rw [h]
              · right; right; simp [charListLt, h]

theorem strLt_irrefl (a : String) : strLt a a = false := charListLt_irrefl _

theorem strLt_trans {a b c : String} (h1 : strLt a b = true)
    (h2 : strLt b c = true) : strLt a c = true := charListLt_trans h1 h2

theorem strLt_tri (a b : String) :
    strLt a b = true ∨ a = b ∨ strLt b a = true := by
  rcases charListLt_tri a.data b.data with h | h | h
  · exact Or.inl h
  · refine Or.inr (Or.inl ?_)
    cases a; cases b; simp_all
  · exact Or.inr (Or.inr h)

theorem strLe_total (a b : String) : strLe a b = true ∨ strLe b a = true := by
  rcases strLt_tri a b with h | rfl | h
  · exact Or.inl (by simp [strLe, h])
  · exact Or.inl (by simp [strLe])
  · exact Or.inr (by simp [strLe, h])

theorem strLe_trans {a b c : String} (h1 : strLe a b = true)
    (h2 : strLe b c = true) : strLe a c = true := by
  rw [strLe, Bool.or_eq_true] at h1 h2 ⊢
  rcases h1 with h1 | h1
  · rcases h2 with h2 | h2
    · exact Or.inl (strLt_trans h1 h2)
    · have : b = c := eq_of_beq h2
      subst this
      exact Or.inl h1
  · have : a = b := eq_of_beq h1
    subst this
    exact h2

theorem strLe_anti {a b : String} (h1 : strLe a b = true)
    (h2 : strLe b a = true) : a = b := by
  rw [strLe, Bool.or_eq_true] at h1 h2
  rcases h1 with h1 | h1
  · rcases h2 with h2 | h2
    · have := strLt_trans h1 h2
      rw [strLt_irrefl] at this
      cases this
    · exact (eq_of_beq h2).symm
  · exact eq_of_beq h1

theorem lexStepB_total {f : α → String} {rest : α → α → Bool}
    (hrest : ∀ a b, f a = f b → rest a b = true ∨ rest b a = true) (a b : α) :
    lexStepB f rest a b = true ∨ lexStepB f rest b a = true := by
  rcases strLt_tri (f a) (f b) with h | h | h
  · exact Or.inl (by simp [lexStepB, h])
  · rcases hrest a b h with hr | hr
    · exact Or.inl (by simp [lexStepB, h, hr])
    · exact Or.inr (by simp [lexStepB, h.symm, hr])
  · exact Or.inr (by simp [lexStepB, h])

theorem lexStepB_trans {f : α → String} {rest : α → α → Bool}
    (hrest : ∀ a b c, f a = f b → f b = f c →
      rest a b = true → rest b c = true → rest a c = true)
    {a b c : α} (h1 : lexStepB f rest a b = true)
    (h2 : lexStepB f rest b c = true) : lexStepB f rest a c = true := by
  rw [lexStepB, Bool.or_eq_true] at h1 h2 ⊢
  rcases h1 with h1 | h1
  · rcases h2 with h2 | h2
    · exact Or.inl (strLt_trans h1 h2)
    · rw [Bool.and_eq_true] at h2
      have : f b = f c := eq_of_beq h2.1
      exact Or.inl (this ▸ h1)
  · rw [Bool.and_eq_true] at h1
    have hab : f a = f b := eq_of_beq h1.1
    rcases h2 with h2 | h2
    · exact Or.inl (hab ▸ h2)
    · rw [Bool.and_eq_true] at h2
      have hbc : f b = f c := eq_of_beq h2.1
      refine Or.inr ?_
      rw [Bool.and_eq_true]
      refine ⟨?_, hrest a b c hab hbc h1.2 h2.2⟩
      have : f a = f c := hab.trans hbc
      simp [this]

theorem lexStepB_anti {f : α → String} {rest : α → α → Bool}
    {a b : α} (h1 : lexStepB f rest a b = true)
    (h2 : lexStepB f rest b a = true) :
    f a = f b ∧ rest a b = true ∧ rest b a = true := by
  rw [lexStepB, Bool.or_eq_true] at h1 h2
  rcases h1 with h1 | h1
  · rcases h2 with h2 | h2
    · have := strLt_trans h1 h2
      rw [strLt_irrefl] at this
      cases this
    · rw [Bool.and_eq_true] at h2
      have : f b = f a := eq_of_beq h2.1
      rw [this, strLt_irrefl] at h1
      cases h1
  · rw [Bool.and_eq_true] at h1
    have hab : f a = f b := eq_of_beq h1.1
    rcases h2 with h2 | h2
    · rw [hab, strLt_irrefl] at h2
      cases h2
    · rw [Bool.and_eq_true] at h2
      exact ⟨hab, h1.2, h2.2⟩

theorem issueLe_eq_lexStep :
    issueLe = lexStepB (fun i : Issue => i.path)
      (lexStepB (fun i : Issue => i.code) (fun a b => strLe a.message b.message)) := rfl

theorem issueLe_total (a b : Issue) : issueLe a b = true ∨ issueLe b a = true := by
  rw [issueLe_eq_lexStep]
  exact lexStepB_total
    (fun x y _ => lexStepB_total
      (fun u v _ => strLe_total u.message v.message) x y) a b

theorem issueLe_trans {a b c : Issue} (h1 : issueLe a b = true)
    (h2 : issueLe b c = true) : issueLe a c = true := by
  rw [issueLe_eq_lexStep] at h1 h2 ⊢
  exact @lexStepB_trans Issue (fun i => i.path)
    (lexStepB (fun i => i.code) (fun a b => strLe a.message b.message))
    (fun x y z _ _ hxy hyz =>
      @lexStepB_trans Issue (fun i => i.code)
        (fun a b => strLe a.message b.message)
        (fun u v w _ _ huv hvw => strLe_trans huv hvw) x y z hxy hyz)
    a b c h1 h2

theorem issueLe_anti {a b : Issue} (h1 : issueLe a b = true)
    (h2 : issueLe b a = true) : a = b := by
  rw [issueLe_eq_lexStep] at h1 h2
  obtain ⟨hp, h1', h2'⟩ := lexStepB_anti h1 h2
  obtain ⟨hc, h1'', h2''⟩ := lexStepB_anti h1' h2'
  have hm : a.message = b.message := strLe_anti h1'' h2''
  cases a; cases b; simp_all

theorem renamePairLe_eq_lexStep :
    renamePairLe = lexStepB (fun p : String × String => p.1)
      (fun a b => strLe a.2 b.2) := rfl

theorem renamePairLe_total (a b : String × String) :
    renamePairLe a b = true ∨ renamePairLe b a = true := by
  rw [renamePairLe_eq_lexStep]
  exact lexStepB_total (fun u v _ => strLe_total u.2 v.2) a b

theorem renamePairLe_trans {a b c : String × String}
    (h1 : renamePairLe a b = true) (h2 : renamePairLe b c = true) :
    renamePairLe a c = true := by
  rw [renamePairLe_eq_lexStep] at h1 h2 ⊢
  exact @lexStepB_trans (String × String) (fun p => p.1)
    (fun a b => strLe a.2 b.2)
    (fun u v w _ _ huv hvw => strLe_trans huv hvw) a b c h1 h2

theorem renamePairLe_anti {a b : String × String}
    (h1 : renamePairLe a b = true) (h2 : renamePairLe b a = true) : a = b := by
  rw [renamePairLe_eq_lexStep] at h1 h2
  obtain ⟨hp, h1', h2'⟩ := lexStepB_anti h1 h2
  have : a.2 = b.2 := strLe_anti h1' h2'
  cases a; cases b; simp_all

/-!
## Claims
-/

/-- C2: the mapper applies rename (pairs sorted by `(source, target)`), then
defaults (sorted keys, only absent targets, checked after renames), then
drop (sorted, absent paths skipped silently), then require (sorted, missing
paths recorded), witnessed by Scenario C and by three inputs that
distinguish the category order: a default whose target is created by a
rename is skipped, a defaulted path can then be dropped, and a dropped path
is seen as missing by require. -/
theorem claim_C2 :
    schemaMap [("a", .int 1), ("b", .obj [("c", .int 2)])]
      { rename := [("b.c", "b.d"), ("a", "x")], defaults := [("z", .int 9)],
        require := ["x", "b.d"] } "strict" =
      .ok (.ok
        { ok := true,
          data := some [("b", .obj [("d", .int 2)]), ("x", .int 1), ("z", .int 9)],
          meta := some ["rename:a->x", "rename:b.c->b.d", "defaults:z"],
          errors := [] }) ∧
    schemaMap [("a", .int 1)]
      { rename := [("a", "x")], defaults := [("x", .int 5), ("a", .int 7)] }
      "strict" =
      .ok (.ok
        { ok := true, data := some [("x", .int 1), ("a", .int 7)],
          meta := some ["rename:a->x", "defaults:a"], errors := [] }) ∧
    schemaMap [] { defaults := [("p", .int 1)], drop := ["p"] } "strict" =
      .ok (.ok
        { ok := true, data := some [], meta := some ["defaults:p", "drop:p"],
          errors := [] }) ∧
    schemaMap [("q", .int 1)] { drop := ["q"], require := ["q"] } "strict" =
      .ok (.ok
        { ok := false, data := none, meta := none,
          errors := [⟨"q", "REQUIRED_MISSING", "Required path is missing."⟩] }) :=
  ⟨rfl, rfl, rfl, rfl⟩

/-- C10: the mapper is not total on valid-path inputs — with data
`{"a": 1}` and `defaults={"a.b": 9}` every mapping path is valid, yet
`_set_path` assigns through the existing non-dict value `1` and raises an
uncaught `TypeError`, so no envelope is produced. -/
theorem claim_C10 :
    validatePaths { defaults := [("a.b", .int 9)] } = none ∧
    schemaMap [("a", .int 1)] { defaults := [("a.b", .int 9)] } "strict" =
      .error .typeError :=
  ⟨rfl, rfl⟩

/-- C5 counterexample: two failures of the claim.  First, for
`rename={"a": ".t", ".s": "y"}` the claimed check order (all rename
sources, then all rename targets) would name `".s"`, but the code checks
each pair's source and target together in input order and aborts naming
`".t"`.  Second, `rename={"": "x"}` contains an invalid mapping path, yet
the operation does not abort at all: `_validate_paths` returns the empty
string, `if invalid_path:` is falsy, and the mapper proceeds to an
ok-envelope recording a `SOURCE_PATH_MISSING` error. -/
theorem claim_C5_counterexample :
    validatePaths { rename := [("a", ".t"), (".s", "y")] } = some ".t" ∧
    claimFirstInvalid { rename := [("a", ".t"), (".s", "y")] } = some ".s" ∧
    schemaMap [] { rename := [("a", ".t"), (".s", "y")] } "strict" =
      .ok (.fail 400
        (smStructuredError "MAPPING_INVALID" "Invalid path: .t." ".t")) ∧
    (".t" : String) ≠ ".s" ∧
    isValidPath "" = false ∧
    validatePaths { rename := [("", "x")] } = some "" ∧
    schemaMap [] { rename := [("", "x")] } "strict" =
      .ok (.ok
        { ok := false, data := none, meta := none,
          errors :=
            [⟨"", "SOURCE_PATH_MISSING", "Rename source path is missing."⟩] }) :=
  ⟨rfl, rfl, rfl, by decide, rfl, rfl, rfl⟩

theorem firstInvalid_append (l₁ l₂ : List String) :
    firstInvalid (l₁ ++ l₂) =
      (match firstInvalid l₁ with
       | some p => some p
       | none => firstInvalid l₂) := by
  induction l₁ with
  | nil => simp [firstInvalid]
  | cons p rest ih =>
      rw [List.cons_append, firstInvalid, firstInvalid]
      by_cases h : isValidPath p = true
      · simp [h, ih]
      · simp at h
        simp [h]

theorem validatePathsRename_eq_firstInvalid (pairs : List (String × String)) :
    validatePathsRename pairs =
      firstInvalid ((pairs.map (fun p => [p.1, p.2])).flatten) := by
  induction pairs with
  | nil => rfl
  | cons p rest ih =>
      obtain ⟨s, t⟩ := p
      rw [validatePathsRename]
      simp only [List.map_cons, List.flatten_cons]
      rw [List.cons_append, List.cons_append, firstInvalid, firstInvalid]
      by_cases hs : isValidPath s = true
      · by_cases ht : isValidPath t = true
        · simp [hs, ht, ih]
        · simp at ht
          simp [hs, ht]
      · simp at hs
        simp [hs]

/-- C5 (amended): the first invalid mapping path is found by checking, for
each rename pair in input order, its source and then its target, followed
by the drop paths, the defaults keys and the require paths, each in input
order; when that first invalid path is non-empty the request aborts with
`MAPPING_INVALID` naming it, before any mutation.  (When the first invalid
path is the empty string, `if invalid_path:` is falsy and the mapper
proceeds — see the counterexample.) -/
theorem claim_C5 :
    (∀ m : Mapping, validatePaths m = firstInvalid (checkSeq m)) ∧
    (∀ (data : List (String × Json)) (m : Mapping) (mode p : String),
      (mode = "strict" ∨ mode = "permissive") →
      validatePaths m = some p → p ≠ "" →
      schemaMap data m mode =
        .ok (.fail 400
          (smStructuredError "MAPPING_INVALID" ("Invalid path: " ++ p ++ ".") p))) := by
  constructor
  · intro m
    rw [validatePaths, checkSeq, validatePathsRename_eq_firstInvalid]
    rw [firstInvalid_append, firstInvalid_append, firstInvalid_append]
    cases firstInvalid ((m.rename.map fun p => [p.1, p.2]).flatten) with
    | some p => rfl
    | none =>
        cases firstInvalid m.drop with
        | some p => rfl
        | none => cases firstInvalid (m.defaults.map (·.1)) <;> rfl
  · intro data m mode p hmode hp hne
    rcases hmode with rfl | rfl <;> simp [schemaMap, hp, pyTruthy, hne]

/-- C5 witness. -/
theorem claim_C5_witness :
    validatePaths { drop := ["ok", ".bad"] } =
      firstInvalid (checkSeq { drop := ["ok", ".bad"] }) ∧
    schemaMap [] { drop := ["ok", ".bad"] } "permissive" =
      .ok (.fail 400
        (smStructuredError "MAPPING_INVALID" "Invalid path: .bad." ".bad")) :=
  ⟨claim_C5.1 _, claim_C5.2 [] _ "permissive" ".bad" (Or.inr rfl) rfl (by decide)⟩

/-- C1 counterexample: a request whose mapping paths are all valid need not
return any envelope at all — renaming `"a"` to `"a.b"` over `{"a": 1}`
assigns through the non-dict value `1` and raises an uncaught `TypeError`,
so the operation does not return inside an `ok:true` envelope. -/
theorem claim_C1_counterexample :
    validatePaths { rename := [("a", "a.b")] } = none ∧
    schemaMap [("a", .int 1)] { rename := [("a", "a.b")] } "strict" =
      .error .typeError :=
  ⟨rfl, rfl⟩

/-- C1 (amended): for every schema_map request with a valid mode whose
mapping paths are all valid and whose rule application raises no error,
the operation returns inside an `ok:true` envelope with `result.ok`
computed from the mode: in strict mode `result.ok` is true iff the recorded
error list is empty, and when it is false the returned data and applied log
are null; in permissive mode `result.ok` is unconditionally true and the
data and applied log are always returned.  In particular Scenario D holds:
`apply({"a":1}, rename={"missing":"x"}, require=["missing_required"])` in
strict mode yields `ok:false`, `data:null`, and exactly the two errors
sorted by path. -/
theorem claim_C1 :
    (∀ (data : List (String × Json)) (m : Mapping) (mode : String)
      (env : Envelope MapResult),
      (mode = "strict" ∨ mode = "permissive") →
      validatePaths m = none →
      schemaMap data m mode = .ok env →
      ∃ r : MapResult, env = .ok r ∧
        (mode = "strict" →
          r.ok = r.errors.isEmpty ∧
          (r.ok = false → r.data = none ∧ r.meta = none)) ∧
        (mode = "permissive" →
          r.ok = true ∧ (∃ d, r.data = some d) ∧ ∃ l, r.meta = some l)) ∧
    schemaMap [("a", .int 1)]
      { rename := [("missing", "x")], require := ["missing_required"] }
      "strict" =
      .ok (.ok
        { ok := false, data := none, meta := none,
          errors :=
            [⟨"missing", "SOURCE_PATH_MISSING", "Rename source path is missing."⟩,
             ⟨"missing_required", "REQUIRED_MISSING", "Required path is missing."⟩] }) := by
  constructor
  · intro data m mode env hmode hval hrun
    have hmode' : ¬(mode ≠ "strict" ∧ mode ≠ "permissive") := by
      rcases hmode with rfl | rfl <;> simp
    rw [schemaMap, if_neg hmode', hval] at hrun
    cases hren : renameLoop (data, [], []) (sortByLe renamePairLe m.rename) with
    | error e => simp [pyTruthy, hren] at hrun
    | ok st =>
        obtain ⟨out₁, errors₁, applied₁⟩ := st
        cases hdef : defaultsLoop m.defaults (out₁, applied₁)
            (sortByLe strLe (m.defaults.map (·.1))) with
        | error e => simp [pyTruthy, hren, hdef] at hrun
        | ok st₂ =>
            obtain ⟨out₂, applied₂⟩ := st₂
            simp only [pyTruthy, hren, hdef] at hrun
            refine ⟨_, (Except.ok.inj hrun).symm, ?_, ?_⟩
            · rintro rfl
              constructor
              · simp
              · intro hok
                simp at hok
                simp [hok]
            · rintro rfl
              refine ⟨by simp, ?_, ?_⟩ <;> simp
  · rfl

/-- C1 witness. -/
theorem claim_C1_witness :
    ∃ r : MapResult,
      (Envelope.ok
        { ok := true, data := some [("b", Json.int 1)],
          meta := some ["rename:a->b"], errors := [] } : Envelope MapResult) =
        .ok r ∧
      ("strict" = "strict" →
        r.ok = r.errors.isEmpty ∧
        (r.ok = false → r.data = none ∧ r.meta = none)) ∧
      ("strict" = "permissive" →
        r.ok = true ∧ (∃ d, r.data = some d) ∧ ∃ l, r.meta = some l) :=
  claim_C1.1 [("a", .int 1)] { rename := [("a", "b")] } "strict" _
    (Or.inl rfl) rfl rfl

theorem flatten_replicate_singleton {α : Type} (n : Nat) (c : α) :
    (List.replicate n [c]).flatten = List.replicate n c := by
  induction n with
  | zero => rfl
  | succ k ih => simp [List.replicate_succ, ih]

/-- The all-`'a'` string of length `n` serializes to `n + 2` characters. -/
theorem schemaSize_replicate_a (n : Nat) :
    schemaSize (.str (String.mk (List.replicate n 'a'))) = n + 2 := by
  rw [schemaSize]
  show (dumpsStrLit (String.mk (List.replicate n 'a'))).data.length = n + 2
  rw [dumpsStrLit, escapeString]
  have hesc : escapeChar 'a' = ['a'] := by decide
  have : (String.mk (List.replicate n 'a')).data = List.replicate n 'a' := rfl
  rw [this, List.map_replicate, hesc, flatten_replicate_singleton]
  simp [String.data_append]

/-- C6 counterexample: the schema `{"": 1}` carries a keyword outside the
allowed set, and the data is small, yet the request is not rejected with
`SCHEMA_UNSUPPORTED`: `_unsupported_schema` returns the empty string,
`if unsupported_key:` is falsy, and validation proceeds to the walk, which
reports `SCHEMA_INVALID` inside an ok envelope. -/
theorem claim_C6_counterexample :
    svAllowed.contains "" = false ∧
    unsupVal (.obj [("", .int 1)]) = some "" ∧
    schemaValidate [("", .int 1)] (.int 0) =
      .ok (.ok
        { ok := false,
          issues := [⟨"$", "SCHEMA_INVALID", "Invalid schema type."⟩],
          issue_count := 1 }) := by
  refine ⟨by decide, by simp [unsupVal, unsupValEntries, svAllowed], ?_⟩
  simp [schemaValidate, schemaSize, dumps, MAX_DATA_LENGTH, unsupVal,
    unsupValEntries, svAllowed, pyTruthy, validateWalk, typeIs, alistLookup,
    sortedIssues, sortByLe, insertLe]
  decide

/-- C6 (amended): the data-size ceiling is checked before any
schema-keyword validation — any request whose data serializes to more than
20000 characters is rejected with `DATA_TOO_LARGE` (ok:false envelope,
http 400) no matter what the schema contains; when the size check passes, a
schema whose keyword scan returns a non-empty out-of-set keyword is
rejected with `SCHEMA_UNSUPPORTED`.  (A returned empty-string keyword is
falsy in `if unsupported_key:` and does not reject — see the
counterexample.) -/
theorem claim_C6 :
    (∀ (schema : List (String × Json)) (data : Json),
      schemaSize data > MAX_DATA_LENGTH →
      schemaValidate schema data =
        .ok (.fail 400
          (svStructuredError "DATA_TOO_LARGE" "Input data is too large."))) ∧
    (∀ (schema : List (String × Json)) (data : Json) (k : String),
      schemaSize data ≤ MAX_DATA_LENGTH →
      unsupVal (.obj schema) = some k → k ≠ "" →
      schemaValidate schema data =
        .ok (.fail 400
          (svStructuredError "SCHEMA_UNSUPPORTED"
            ("Unsupported schema keyword: " ++ k ++ ".")))) := by
  constructor
  · intro schema data hbig
    rw [schemaValidate, if_pos hbig]
  · intro schema data k hsmall hk hne
    rw [schemaValidate, if_neg (by omega), hk, pyTruthy, if_neg hne]

/-- C6 witness: an oversized string is rejected as `DATA_TOO_LARGE` even
under a schema with an unsupported keyword, and once the data is small the
unsupported keyword is rejected. -/
theorem claim_C6_witness :
    schemaValidate [("bogus", .null)]
      (.str (String.mk (List.replicate 20001 'a'))) =
      .ok (.fail 400
        (svStructuredError "DATA_TOO_LARGE" "Input data is too large.")) ∧
    schemaValidate [("bogus", .null)] (.str "hi") =
      .ok (.fail 400
        (svStructuredError "SCHEMA_UNSUPPORTED"
          "Unsupported schema keyword: bogus.")) :=
  ⟨claim_C6.1 _ _ (by rw [schemaSize_replicate_a]; simp [MAX_DATA_LENGTH]),
   claim_C6.2 _ _ "bogus"
     (by show schemaSize (.str "hi") ≤ MAX_DATA_LENGTH
         simp [schemaSize, dumps, dumpsStrLit, escapeString, escapeChar,
           MAX_DATA_LENGTH])
     (by simp [unsupVal, unsupValEntries, svAllowed])
     (by decide)⟩

/-- C4: for supported schemas the diff is symmetric — the added list of
`diff(A, B)` is exactly the removed list of `diff(B, A)` (same paths, same
order, same summaries), and vice versa, for any options. -/
theorem claim_C4 :
    ∀ (A B : List (String × Json)) (options : DiffOptions),
      findUnsupported (.obj A) = none →
      findUnsupported (.obj B) = none →
      ∃ rAB rBA : DiffResult,
        schemaDiff A B options = .ok rAB ∧
        schemaDiff B A options = .ok rBA ∧
        rAB.added_fields = rBA.removed_fields ∧
        rAB.removed_fields = rBA.added_fields := by
  intro A B options hA hB
  have e1 : schemaDiff A B options = .ok (diffCore A B options) := by
    simp only [schemaDiff, hA, hB, pyTruthy]
  have e2 : schemaDiff B A options = .ok (diffCore B A options) := by
    simp only [schemaDiff, hA, hB, pyTruthy]
  exact ⟨diffCore A B options, diffCore B A options, e1, e2, rfl, rfl⟩

/-- C4 witness. -/
theorem claim_C4_witness :
    ∃ rAB rBA : DiffResult,
      schemaDiff
        [("type", .str "object"),
         ("properties", .obj [("name", .obj [("type", .str "string")])])]
        [("type", .str "object"),
         ("properties", .obj [("name", .obj [("type", .str "string")]),
                              ("age", .obj [("type", .str "integer")])])]
        {} = .ok rAB ∧
      schemaDiff
        [("type", .str "object"),
         ("properties", .obj [("name", .obj [("type", .str "string")]),
                              ("age", .obj [("type", .str "integer")])])]
        [("type", .str "object"),
         ("properties", .obj [("name", .obj [("type", .str "string")])])]
        {} = .ok rBA ∧
      rAB.added_fields = rBA.removed_fields ∧
      rAB.removed_fields = rBA.added_fields :=
  claim_C4 _ _ {}
    (by simp [findUnsupported, findUnsupEntries, findUnsupProps, pyTruthy,
      sdForbiddenKeys, sdAllowedKeys, sdSupportedTypes])
    (by simp [findUnsupported, findUnsupEntries, findUnsupProps, pyTruthy,
      sdForbiddenKeys, sdAllowedKeys, sdSupportedTypes])

/-- C9 counterexample: a `"string"` schema that also carries `"items"`, and
an `"object"` schema that also carries `"enum"`, are both accepted and
validated with zero issues — the type-irrelevant keyword is silently
ignored, not rejected or reported. -/
theorem claim_C9_counterexample :
    schemaValidate
      [("type", .str "string"), ("items", .obj [("type", .str "number")])]
      (.str "hi") =
      .ok (.ok { ok := true, issues := [], issue_count := 0 }) ∧
    schemaValidate [("type", .str "object"), ("enum", .arr [.int 1])]
      (.obj []) =
      .ok (.ok { ok := true, issues := [], issue_count := 0 }) := by
  constructor <;>
    simp [schemaValidate, schemaSize, dumps, dumpsStrLit, dumpsObj,
      escapeString, escapeChar, MAX_DATA_LENGTH, unsupVal, unsupValEntries,
      unsupValProps, unsupValList, svAllowed, pyTruthy, validateWalk, typeIs,
      alistLookup, sortedIssues, sortByLe, pySortedRequired, pairwiseComp,
      requiredLoop, additionalLoop, propsLoop, alistKeys]

/-- C9 (amended): only keywords outside the validator's fixed allowed set
are treated as schema errors (`SCHEMA_UNSUPPORTED`, and only when the
keyword scan's result is non-empty — a returned empty-string keyword is
falsy in `if unsupported_key:` and is not rejected); an allowed keyword
that is not meaningful for the node's declared type — `items` on a string
node, `enum` on an object node — is silently ignored and has no effect on
the validation result. -/
theorem claim_C9 :
    (∀ (v : Json) (data : Json) (path : String),
      validateWalk [("type", .str "string"), ("items", v)] data path =
        validateWalk [("type", .str "string")] data path) ∧
    (∀ (v : Json) (data : Json) (path : String),
      validateWalk [("type", .str "object"), ("enum", v)] data path =
        validateWalk [("type", .str "object")] data path) ∧
    (∀ (schema : List (String × Json)) (data : Json) (k : String),
      schemaSize data ≤ MAX_DATA_LENGTH →
      unsupVal (.obj schema) = some k → k ≠ "" →
      schemaValidate schema data =
        .ok (.fail 400
          (svStructuredError "SCHEMA_UNSUPPORTED"
            ("Unsupported schema keyword: " ++ k ++ ".")))) := by
  refine ⟨?_, ?_, ?_⟩
  · intro v data path
    cases data <;>
      simp [validateWalk, typeIs, alistLookup]
  · intro v data path
    cases data <;>
      simp [validateWalk, typeIs, alistLookup]
  · intro schema data k hsmall hk hne
    rw [schemaValidate, if_neg (by omega), hk, pyTruthy, if_neg hne]

/-- C9 witness. -/
theorem claim_C9_witness :
    (validateWalk [("type", .str "string"), ("items", .int 5)] (.str "x") "$" =
      validateWalk [("type", .str "string")] (.str "x") "$") ∧
    schemaValidate [("oneOf", .arr [])] (.str "hi") =
      .ok (.fail 400
        (svStructuredError "SCHEMA_UNSUPPORTED"
          "Unsupported schema keyword: oneOf.")) :=
  ⟨claim_C9.1 (.int 5) (.str "x") "$",
   claim_C9.2.2 _ _ "oneOf"
     (by show schemaSize (.str "hi") ≤ MAX_DATA_LENGTH
         simp [schemaSize, dumps, dumpsStrLit, escapeString, escapeChar,
           MAX_DATA_LENGTH])
     (by simp [unsupVal, unsupValEntries, svAllowed])
     (by decide)⟩

/-- C7 counterexample: the enum `[[2], [10]]` is natively orderable
(`[2] < [10]` in Python), so the claim predicts the deduplicated, natively
sorted `[[2], [10]]`; but lists are unhashable, `set(...)` raises
`TypeError`, and the fallback sorts by the serialized keys `"[10]" < "[2]"`,
producing `[[10], [2]]`. -/
theorem claim_C7_counterexample :
    pairwiseComp [.arr [.int 2], .arr [.int 10]] = true ∧
    claimNormalizedEnum [.arr [.int 2], .arr [.int 10]] =
      [.arr [.int 2], .arr [.int 10]] ∧
    normalizeEnum [.arr [.int 2], .arr [.int 10]] true =
      [.arr [.int 10], .arr [.int 2]] ∧
    normalizeEnum [.arr [.int 2], .arr [.int 10]] true ≠
      claimNormalizedEnum [.arr [.int 2], .arr [.int 10]] := by
  refine ⟨?_, ?_, ?_, ?_⟩ <;>
    simp [normalizeEnum, claimNormalizedEnum, listAll, isHashable,
      dumpsKeyLe, dumpsSorted, canon, canonList, canonObjList, dumps,
      dumpsList, sortByLe, insertLe, strLe, strLt, charListLt, pyLeB,
      pyCompare, pyCompareList, numVal, dedupPyEq, dedupPyEqGo, pyEq,
      pyEqList, pairwiseComp, comparableAll, sortableScalars, Except.isOk] <;>
    decide

theorem dedupPyEqGo_spec (l : List Json) : ∀ seen : List Json,
    (dedupPyEqGo seen l).Pairwise (fun a b => pyEq a b = false) ∧
    (∀ x ∈ dedupPyEqGo seen l, ∀ s ∈ seen, pyEq s x = false) := by
  induction l with
  | nil => intro seen; exact ⟨List.Pairwise.nil, by simp [dedupPyEqGo]⟩
  | cons x xs ih =>
      intro seen
      rw [dedupPyEqGo]
      by_cases hseen : seen.any (fun y => pyEq y x) = true
      · rw [if_pos hseen]
        exact ih seen
      · rw [if_neg hseen]
        rw [List.any_eq_true] at hseen
        push_neg at hseen
        obtain ⟨ihp, ihs⟩ := ih (seen ++ [x])
        refine ⟨List.pairwise_cons.mpr ⟨?_, ihp⟩, ?_⟩
        · intro z hz
          exact ihs z hz x (by simp)
        · intro y hy s hs
          rcases List.mem_cons.mp hy with rfl | hy'
          · have := hseen s hs
            simpa using this
          · exact ihs y hy' s (by simp [hs])

theorem dedupPyEq_pairwise (vals : List Json) :
    (dedupPyEq vals).Pairwise (fun a b => pyEq a b = false) :=
  (dedupPyEqGo_spec vals []).1

theorem pyLeB_of_num {nx ny : Int} {x y : Json} (hx : numVal x = some nx)
    (hy : numVal y = some ny) : pyLeB x y = decide (nx ≤ ny) := by
  rw [pyLeB, pyCompare, hx, hy]
  case x_2 =>
    intro s t hxs hys
    subst hxs
    simp [numVal] at hx
  case x_3 =>
    intro xs ys hxs hys
    subst hxs
    simp [numVal] at hx
  dsimp only
  by_cases h1 : nx < ny
  · rw [if_pos h1]
    simp
    omega
  · rw [if_neg h1]
    by_cases h2 : nx = ny
    · rw [if_pos h2]
      simp
      omega
    · rw [if_neg h2]
      simp
      omega

theorem isNumJson_numVal {x : Json} (hx : isNumJson x = true) :
    ∃ nx, numVal x = some nx := by
  cases x <;> simp_all [isNumJson, numVal]

theorem pyLeB_str_eq (s t : String) :
    pyLeB (.str s) (.str t) = strLe s t := by
  rw [pyLeB, pyCompare]
  dsimp only [numVal]
  by_cases h1 : strLt s t = true
  · simp [h1, strLe]
  · by_cases h2 : s = t
    · subst h2
      simp [strLt_irrefl, strLe]
    · have h3 : strLt s t = false := by simp at h1; exact h1
      simp [h3, h2, strLe, beq_iff_eq]

theorem listAll_mem {p : α → Bool} {l : List α} (h : listAll p l = true) :
    ∀ x ∈ l, p x = true := by
  induction l with
  | nil => simp
  | cons a t ih =>
      rw [listAll, Bool.and_eq_true] at h
      intro x hx
      rcases List.mem_cons.mp hx with rfl | hx'
      · exact h.1
      · exact ih h.2 x hx'

theorem isStrJson_str {x : Json} (hx : isStrJson x = true) :
    ∃ s, x = .str s := by
  cases x <;> simp_all [isStrJson]

/-- C7 (amended): with `ignore_order` false the declared enum order is kept
verbatim.  With `ignore_order` true, when every value is hashable and the
deduplicated values are mutually orderable (all number-like or all strings
or at most one value), the result is the deduplicated list sorted in native
order; otherwise — when any value is a list or object (unhashable), or the
survivors are not mutually orderable — the ORIGINAL list, duplicates
retained, is sorted by its canonical JSON serialization. -/
theorem claim_C7 :
    (∀ vals : List Json, normalizeEnum vals false = vals) ∧
    (∀ vals : List Json,
      listAll isHashable vals = true →
      sortableScalars (dedupPyEq vals) = true →
      normalizeEnum vals true = sortByLe pyLeB (dedupPyEq vals) ∧
      (normalizeEnum vals true).Perm (dedupPyEq vals) ∧
      (dedupPyEq vals).Pairwise (fun a b => pyEq a b = false) ∧
      (normalizeEnum vals true).Pairwise (pyLeB · · = true)) ∧
    (∀ vals : List Json,
      ¬(listAll isHashable vals = true ∧
        sortableScalars (dedupPyEq vals) = true) →
      normalizeEnum vals true = sortByLe dumpsKeyLe vals ∧
      (normalizeEnum vals true).Perm vals ∧
      (normalizeEnum vals true).Pairwise (dumpsKeyLe · · = true)) := by
  refine ⟨fun vals => rfl, ?_, ?_⟩
  · intro vals h1 h2
    have heq : normalizeEnum vals true = sortByLe pyLeB (dedupPyEq vals) := by
      rw [normalizeEnum, if_pos rfl, if_pos h1, if_pos h2]
    refine ⟨heq, heq ▸ sortByLe_perm _ _, dedupPyEq_pairwise vals, ?_⟩
    rw [heq]
    rw [sortableScalars] at h2
    rcases Bool.or_eq_true _ _ |>.mp h2 with h2 | hstr
    rcases Bool.or_eq_true _ _ |>.mp h2 with hlen | hnum
    · -- at most one survivor: no pairs to order
      rw [decide_eq_true_iff] at hlen
      match hd : dedupPyEq vals, hlen' : (dedupPyEq vals).length with
      | [], _ => simp [sortByLe]
      | [x], _ => simp [sortByLe, insertLe]
      | x :: y :: t, _ => rw [hd] at hlen; simp at hlen
    · -- all number-like
      refine sortByLe_pairwise ?_ ?_
      · intro x hx y hy
        obtain ⟨nx, hnx⟩ := isNumJson_numVal (listAll_mem hnum x hx)
        obtain ⟨ny, hny⟩ := isNumJson_numVal (listAll_mem hnum y hy)
        rw [pyLeB_of_num hnx hny, pyLeB_of_num hny hnx]
        simp
        omega
      · intro x y z hx hy hz hxy hyz
        obtain ⟨nx, hnx⟩ := isNumJson_numVal (listAll_mem hnum x hx)
        obtain ⟨ny, hny⟩ := isNumJson_numVal (listAll_mem hnum y hy)
        obtain ⟨nz, hnz⟩ := isNumJson_numVal (listAll_mem hnum z hz)
        rw [pyLeB_of_num hnx hny] at hxy
        rw [pyLeB_of_num hny hnz] at hyz
        rw [pyLeB_of_num hnx hnz]
        simp at hxy hyz ⊢
        omega
    · -- all strings
      refine sortByLe_pairwise ?_ ?_
      · intro x hx y hy
        obtain ⟨s, rfl⟩ := isStrJson_str (listAll_mem hstr x hx)
        obtain ⟨t, rfl⟩ := isStrJson_str (listAll_mem hstr y hy)
        rw [pyLeB_str_eq, pyLeB_str_eq]
        exact strLe_total s t
      · intro x y z hx hy hz hxy hyz
        obtain ⟨s, rfl⟩ := isStrJson_str (listAll_mem hstr x hx)
        obtain ⟨t, rfl⟩ := isStrJson_str (listAll_mem hstr y hy)
        obtain ⟨u, rfl⟩ := isStrJson_str (listAll_mem hstr z hz)
        rw [pyLeB_str_eq] at hxy hyz ⊢
        exact strLe_trans hxy hyz
  · intro vals h
    have heq : normalizeEnum vals true = sortByLe dumpsKeyLe vals := by
      by_cases hh : listAll isHashable vals = true
      · have hs : sortableScalars (dedupPyEq vals) = false := by
          by_contra hc
          simp only [Bool.not_eq_false] at hc
          exact h ⟨hh, hc⟩
        rw [normalizeEnum, if_pos rfl, if_pos hh, if_neg (by simp [hs])]
      · rw [normalizeEnum, if_pos rfl,
          if_neg (by simp only [Bool.not_eq_true] at hh; simp [hh])]
    refine ⟨heq, heq ▸ sortByLe_perm _ _, ?_⟩
    rw [heq]
    refine sortByLe_pairwise ?_ ?_
    · intro x _ y _
      rw [dumpsKeyLe, dumpsKeyLe]
      exact strLe_total _ _
    · intro x y z _ _ _ hxy hyz
      rw [dumpsKeyLe] at hxy hyz ⊢
      exact strLe_trans hxy hyz

/-- C7 witness. -/
theorem claim_C7_witness :
    (normalizeEnum [Json.int 3, .int 1, .int 3] true =
      sortByLe pyLeB (dedupPyEq [Json.int 3, .int 1, .int 3]) ∧
     (normalizeEnum [Json.int 3, .int 1, .int 3] true).Perm
       (dedupPyEq [Json.int 3, .int 1, .int 3]) ∧
     (dedupPyEq [Json.int 3, .int 1, .int 3]).Pairwise
       (fun a b => pyEq a b = false) ∧
     (normalizeEnum [Json.int 3, .int 1, .int 3] true).Pairwise
       (pyLeB · · = true)) ∧
    (normalizeEnum [Json.obj [], Json.null] true =
      sortByLe dumpsKeyLe [Json.obj [], Json.null] ∧
     (normalizeEnum [Json.obj [], Json.null] true).Perm
       [Json.obj [], Json.null] ∧
     (normalizeEnum [Json.obj [], Json.null] true).Pairwise
       (dumpsKeyLe · · = true)) :=
  ⟨claim_C7.2.1 [Json.int 3, .int 1, .int 3]
     (by simp [listAll, isHashable])
     (by simp [sortableScalars, dedupPyEq, dedupPyEqGo, pyEq, numVal,
       listAll, isNumJson]),
   claim_C7.2.2 [Json.obj [], Json.null]
     (by simp [listAll, isHashable])⟩

/-- C8 counterexample: permuting the entries of an (invalid) rename dict
changes which path the MAPPING_INVALID error names, so the results differ.
-/
theorem claim_C8_counterexample :
    ([((".a" : String), ("x" : String)), ((".b" : String), ("y" : String))]).Perm
      [((".b" : String), ("y" : String)), ((".a" : String), ("x" : String))] ∧
    schemaMap [] { rename := [(".a", "x"), (".b", "y")] } "strict" =
      .ok (.fail 400
        (smStructuredError "MAPPING_INVALID" "Invalid path: .a." ".a")) ∧
    schemaMap [] { rename := [(".b", "y"), (".a", "x")] } "strict" =
      .ok (.fail 400
        (smStructuredError "MAPPING_INVALID" "Invalid path: .b." ".b")) ∧
    schemaMap [] { rename := [(".a", "x"), (".b", "y")] } "strict" ≠
      schemaMap [] { rename := [(".b", "y"), (".a", "x")] } "strict" := by
  refine ⟨List.Perm.swap _ _ _, rfl, rfl, ?_⟩
  intro h
  rw [show schemaMap [] { rename := [(".a", "x"), (".b", "y")] } "strict" =
      .ok (.fail 400
        (smStructuredError "MAPPING_INVALID" "Invalid path: .a." ".a")) from rfl,
    show schemaMap [] { rename := [(".b", "y"), (".a", "x")] } "strict" =
      .ok (.fail 400
        (smStructuredError "MAPPING_INVALID" "Invalid path: .b." ".b")) from rfl] at h
  simp [smStructuredError] at h

theorem firstInvalid_eq_none {l : List String} :
    firstInvalid l = none ↔ ∀ p ∈ l, isValidPath p = true := by
  induction l with
  | nil => simp [firstInvalid]
  | cons p rest ih =>
      rw [firstInvalid]
      by_cases h : isValidPath p = true
      · simp [h, ih]
      · simp at h
        simp [h]

theorem validatePathsRename_eq_none {pairs : List (String × String)} :
    validatePathsRename pairs = none ↔
      ∀ pr ∈ pairs, isValidPath pr.1 = true ∧ isValidPath pr.2 = true := by
  induction pairs with
  | nil => simp [validatePathsRename]
  | cons pr rest ih =>
      obtain ⟨s, t⟩ := pr
      rw [validatePathsRename]
      by_cases hs : isValidPath s = true
      · by_cases ht : isValidPath t = true
        · simp [hs, ht, ih]
        · simp at ht
          simp [hs, ht]
      · simp at hs
        simp [hs]

theorem validatePaths_eq_none {m : Mapping} :
    validatePaths m = none ↔
      (∀ pr ∈ m.rename, isValidPath pr.1 = true ∧ isValidPath pr.2 = true) ∧
      (∀ p ∈ m.drop, isValidPath p = true) ∧
      (∀ p ∈ m.defaults.map (·.1), isValidPath p = true) ∧
      (∀ p ∈ m.require, isValidPath p = true) := by
  rw [validatePaths]
  cases h1 : validatePathsRename m.rename with
  | some p =>
      simp only []
      constructor
      · intro h; cases h
      · rintro ⟨hr, -⟩
        rw [validatePathsRename_eq_none.mpr hr] at h1
        cases h1
  | none =>
      have hr := validatePathsRename_eq_none.mp h1
      cases h2 : firstInvalid m.drop with
      | some p =>
          simp only []
          constructor
          · intro h; cases h
          · rintro ⟨-, hd, -⟩
            rw [firstInvalid_eq_none.mpr hd] at h2
            cases h2
      | none =>
          have hd := firstInvalid_eq_none.mp h2
          cases h3 : firstInvalid (m.defaults.map (·.1)) with
          | some p =>
              simp only []
              constructor
              · intro h; cases h
              · rintro ⟨-, -, hk, -⟩
                rw [firstInvalid_eq_none.mpr hk] at h3
                cases h3
          | none =>
              have hk := firstInvalid_eq_none.mp h3
              simp only [firstInvalid_eq_none]
              constructor
              · intro hreq
                exact ⟨fun pr hpr => hr pr hpr, hd, hk, hreq⟩
              · rintro ⟨-, -, -, hreq⟩
                exact hreq

theorem alistLookup_mem {kvs : List (String × Json)} {k : String} {v : Json}
    (h : alistLookup kvs k = some v) : (k, v) ∈ kvs := by
  induction kvs with
  | nil => simp [alistLookup] at h
  | cons hd tl ih =>
      obtain ⟨k', v'⟩ := hd
      rw [alistLookup] at h
      split at h
      · rename_i heq
        cases h
        subst heq
        exact List.mem_cons_self _ _
      · exact List.mem_cons_of_mem _ (ih h)

theorem alistLookup_of_mem {kvs : List (String × Json)} {k : String} {v : Json}
    (hnd : (kvs.map (·.1)).Nodup) (h : (k, v) ∈ kvs) :
    alistLookup kvs k = some v := by
  induction kvs with
  | nil => simp at h
  | cons hd tl ih =>
      obtain ⟨k', v'⟩ := hd
      rw [List.map_cons, List.nodup_cons] at hnd
      rw [alistLookup]
      rcases List.mem_cons.mp h with heq | hmem
      · rw [Prod.mk.injEq] at heq
        obtain ⟨rfl, rfl⟩ := heq
        rw [if_pos rfl]
      · by_cases hk : k' = k
        · subst hk
          exact absurd (List.mem_map.mpr ⟨(k', v), hmem, rfl⟩) hnd.1
        · rw [if_neg hk]
          exact ih hnd.2 hmem

theorem alistLookup_eq_none {kvs : List (String × Json)} {k : String} :
    alistLookup kvs k = none ↔ k ∉ kvs.map (·.1) := by
  induction kvs with
  | nil => simp [alistLookup]
  | cons hd tl ih =>
      obtain ⟨k', v'⟩ := hd
      rw [alistLookup]
      by_cases hk : k' = k
      · subst hk
        simp
      · simp only [if_neg hk, ih, List.map_cons, List.mem_cons]
        constructor
        · intro h
          rintro (rfl | hmem)
          · exact hk rfl
          · exact h hmem
        · intro h hmem
          exact h (Or.inr hmem)

theorem alistLookup_perm {kvs kvs' : List (String × Json)}
    (hp : kvs.Perm kvs') (hnd : (kvs.map (·.1)).Nodup) (k : String) :
    alistLookup kvs k = alistLookup kvs' k := by
  have hnd' : (kvs'.map (·.1)).Nodup := ((hp.map (·.1)).nodup_iff).mp hnd
  cases h : alistLookup kvs k with
  | none =>
      rw [alistLookup_eq_none] at h
      have : k ∉ kvs'.map (·.1) := fun hc => h ((hp.map (·.1)).mem_iff.mpr hc)
      rw [alistLookup_eq_none.mpr this]
  | some v =>
      exact (alistLookup_of_mem hnd' (hp.mem_iff.mp (alistLookup_mem h))).symm

theorem defaultsStep_congr {d1 d2 : List (String × Json)}
    (h : ∀ k, alistLookup d1 k = alistLookup d2 k)
    (st : List (String × Json) × List String) (target : String) :
    defaultsStep d1 st target = defaultsStep d2 st target := by
  rw [defaultsStep, defaultsStep, h target]

theorem defaultsLoop_congr {d1 d2 : List (String × Json)}
    (h : ∀ k, alistLookup d1 k = alistLookup d2 k) :
    ∀ (keys : List String) (st : List (String × Json) × List String),
      defaultsLoop d1 st keys = defaultsLoop d2 st keys := by
  intro keys
  induction keys with
  | nil => intro st; rfl
  | cons target rest ih =>
      intro st
      rw [defaultsLoop, defaultsLoop, defaultsStep_congr h]
      cases defaultsStep d2 st target with
      | error e => rfl
      | ok st' => exact ih st'

/-- C8 (amended): for any mapping ruleset whose paths are all valid,
permuting the input order of the rename, drop, defaults and require entries
yields an identical result (all processing order is sort-derived); when the
ruleset has invalid paths the named path can depend on the input order. -/
theorem claim_C8 :
    ∀ (data : List (String × Json)) (m m' : Mapping) (mode : String),
      m.rename.Perm m'.rename →
      m.drop.Perm m'.drop →
      m.defaults.Perm m'.defaults →
      (m.defaults.map (·.1)).Nodup →
      m.require.Perm m'.require →
      validatePaths m = none →
      schemaMap data m mode = schemaMap data m' mode := by
  intro data m m' mode hren hdrop hdef hnd hreq hval
  have hval' : validatePaths m' = none := by
    rw [validatePaths_eq_none] at hval ⊢
    obtain ⟨h1, h2, h3, h4⟩ := hval
    refine ⟨fun pr hpr => h1 pr (hren.mem_iff.mpr hpr),
      fun p hp => h2 p (hdrop.mem_iff.mpr hp),
      fun p hp => h3 p (((hdef.map (·.1)).mem_iff).mpr hp),
      fun p hp => h4 p (hreq.mem_iff.mpr hp)⟩
  have hrenS : sortByLe renamePairLe m.rename = sortByLe renamePairLe m'.rename :=
    sortByLe_eq_of_perm renamePairLe_total (fun x y z => renamePairLe_trans)
      (fun x y => renamePairLe_anti) hren
  have hdropS : sortByLe strLe m.drop = sortByLe strLe m'.drop :=
    sortByLe_eq_of_perm strLe_total (fun x y z => strLe_trans)
      (fun x y => strLe_anti) hdrop
  have hreqS : sortByLe strLe m.require = sortByLe strLe m'.require :=
    sortByLe_eq_of_perm strLe_total (fun x y z => strLe_trans)
      (fun x y => strLe_anti) hreq
  have hdefS : sortByLe strLe (m.defaults.map (·.1)) =
      sortByLe strLe (m'.defaults.map (·.1)) :=
    sortByLe_eq_of_perm strLe_total (fun x y z => strLe_trans)
      (fun x y => strLe_anti) (hdef.map (·.1))
  have hdefL : defaultsLoop m.defaults = defaultsLoop m'.defaults := by
    funext st keys
    exact defaultsLoop_congr (alistLookup_perm hdef hnd) keys st
  rw [schemaMap, schemaMap, hval, hval', hrenS, hdropS, hreqS, hdefS, hdefL]

/-- C8 witness. -/
theorem claim_C8_witness :
    schemaMap [("a", .int 1)]
      { rename := [("a", "x")], drop := ["d1", "d2"],
        defaults := [("y", .int 2), ("z", .int 3)], require := ["x"] }
      "strict" =
    schemaMap [("a", .int 1)]
      { rename := [("a", "x")], drop := ["d2", "d1"],
        defaults := [("z", .int 3), ("y", .int 2)], require := ["x"] }
      "strict" :=
  claim_C8 [("a", .int 1)] _ _ "strict" (List.Perm.refl _)
    (List.Perm.swap _ _ _) (List.Perm.swap _ _ _) (by simp) (List.Perm.refl _)
    rfl

theorem canonObjList_eq_map (kvs : List (String × Json)) :
    canonObjList kvs = kvs.map (fun p => (p.1, canon p.2)) := by
  induction kvs with
  | nil => rfl
  | cons hd tl ih =>
      obtain ⟨k, v⟩ := hd
      rw [canonObjList, ih, List.map_cons]

theorem canonList_eq_map (xs : List Json) : canonList xs = xs.map canon := by
  induction xs with
  | nil => rfl
  | cons x tl ih => rw [canonList, ih, List.map_cons]

theorem canon_obj (kvs : List (String × Json)) :
    canon (.obj kvs) = .obj (canonEntries kvs) := rfl

theorem canonObjList_keys (kvs : List (String × Json)) :
    (canonObjList kvs).map (·.1) = kvs.map (·.1) := by
  rw [canonObjList_eq_map, List.map_map]
  rfl

theorem canonEntries_keys_perm (kvs : List (String × Json)) :
    ((canonEntries kvs).map (·.1)).Perm (kvs.map (·.1)) := by
  rw [canonEntries]
  have := (sortByLe_perm pairKeyLe (canonObjList kvs)).map (·.1)
  rw [canonObjList_keys] at this
  exact this

theorem sorted_keys_canonEntries (kvs : List (String × Json)) :
    sortByLe strLe ((canonEntries kvs).map (·.1)) =
      sortByLe strLe (kvs.map (·.1)) :=
  sortByLe_eq_of_perm strLe_total (fun x y z => strLe_trans)
    (fun x y => strLe_anti) (canonEntries_keys_perm kvs)

theorem contains_congr_perm {l l' : List String} (hp : l.Perm l')
    (s : String) : l.contains s = l'.contains s := by
  by_cases h : s ∈ l
  · simp [h, hp.mem_iff.mp h]
  · have h' : s ∉ l' := fun hc => h (hp.mem_iff.mpr hc)
    simp [h, h']

theorem alistLookup_canonObjList (kvs : List (String × Json)) (k : String) :
    alistLookup (canonObjList kvs) k = (alistLookup kvs k).map canon := by
  induction kvs with
  | nil => rfl
  | cons hd tl ih =>
      obtain ⟨k', v⟩ := hd
      rw [canonObjList, alistLookup, alistLookup]
      by_cases h : k' = k
      · rw [if_pos h, if_pos h]; rfl
      · rw [if_neg h, if_neg h, ih]

theorem alistLookup_canonEntries {kvs : List (String × Json)}
    (hnd : (kvs.map (·.1)).Nodup) (k : String) :
    alistLookup (canonEntries kvs) k = (alistLookup kvs k).map canon := by
  have hnd' : ((canonObjList kvs).map (·.1)).Nodup := by
    rw [canonObjList_keys]; exact hnd
  have hp : (canonObjList kvs).Perm (canonEntries kvs) :=
    (sortByLe_perm pairKeyLe (canonObjList kvs)).symm
  rw [← alistLookup_perm hp hnd' k, alistLookup_canonObjList]

theorem typeIs_canonEntries {kvs : List (String × Json)}
    (hnd : (kvs.map (·.1)).Nodup) (t : String) :
    typeIs (canonEntries kvs) t = typeIs kvs t := by
  rw [typeIs, typeIs, alistLookup_canonEntries hnd]
  cases h : alistLookup kvs "type" with
  | none => rfl
  | some v => cases v <;> simp [canon]

theorem nodupStrKeys_iff {l : List String} :
    nodupStrKeys l = true ↔ l.Nodup := by
  induction l with
  | nil => simp [nodupStrKeys]
  | cons k rest ih =>
      rw [nodupStrKeys, Bool.and_eq_true, List.nodup_cons, ih]
      constructor
      · rintro ⟨h1, h2⟩
        refine ⟨fun hm => ?_, h2⟩
        simp [hm] at h1
      · rintro ⟨h1, h2⟩
        refine ⟨?_, h2⟩
        simp [h1]

theorem jsonNodupObj_mem {kvs : List (String × Json)}
    (h : jsonNodupObj kvs = true) : ∀ p ∈ kvs, jsonNodupRec p.2 = true := by
  induction kvs with
  | nil => simp
  | cons hd tl ih =>
      obtain ⟨k, v⟩ := hd
      rw [jsonNodupObj, Bool.and_eq_true] at h
      intro p hp
      rcases List.mem_cons.mp hp with rfl | hp'
      · exact h.1
      · exact ih h.2 p hp'

theorem jsonNodupList_mem {xs : List Json}
    (h : jsonNodupList xs = true) : ∀ x ∈ xs, jsonNodupRec x = true := by
  induction xs with
  | nil => simp
  | cons x tl ih =>
      rw [jsonNodupList, Bool.and_eq_true] at h
      intro y hy
      rcases List.mem_cons.mp hy with rfl | hy'
      · exact h.1
      · exact ih h.2 y hy'

theorem jsonNodupRec_obj {kvs : List (String × Json)}
    (h : jsonNodupRec (.obj kvs) = true) :
    (kvs.map (·.1)).Nodup ∧ ∀ p ∈ kvs, jsonNodupRec p.2 = true := by
  rw [jsonNodupRec, Bool.and_eq_true] at h
  exact ⟨nodupStrKeys_iff.mp h.1, jsonNodupObj_mem h.2⟩

theorem jsonNodupRec_arr {xs : List Json}
    (h : jsonNodupRec (.arr xs) = true) : ∀ x ∈ xs, jsonNodupRec x = true := by
  rw [jsonNodupRec] at h
  exact jsonNodupList_mem h

theorem pyCompare_canon_aux : ∀ (n : Nat) (a b : Json), sizeOf a ≤ n →
    pyCompare (canon a) (canon b) = pyCompare a b := by
  intro n
  induction n with
  | zero => intro a b h; cases a <;> simp at h
  | succ k ih =>
      intro a b h
      cases a <;> cases b <;>
        simp only [canon, pyCompare, numVal, canonList] <;> try rfl
      case arr.arr xs ys =>
        have hxs : ∀ u ∈ xs, sizeOf u ≤ k := by
          intro u hu
          have h1 := List.sizeOf_lt_of_mem hu
          simp at h
          omega
        have hlist : ∀ us : List Json, (∀ u ∈ us, sizeOf u ≤ k) → ∀ vs,
            pyCompareList (canonList us) (canonList vs) = pyCompareList us vs := by
          intro us
          induction us with
          | nil => intro _ vs; cases vs <;> simp [canonList, pyCompareList]
          | cons u urest ihu =>
              intro hus vs
              cases vs with
              | nil => simp [canonList, pyCompareList]
              | cons v vrest =>
                  rw [canonList, canonList, pyCompareList, pyCompareList]
                  rw [ih u v (hus u (List.mem_cons_self u urest))]
                  cases hpc : pyCompare u v with
                  | error e => rfl
                  | ok o =>
                      cases o with
                      | lt => rfl
                      | eq => exact ihu (fun w hw => hus w (List.mem_cons_of_mem u hw)) vrest
                      | gt => rfl
        exact hlist xs hxs ys

theorem pyCompare_canon (a b : Json) :
    pyCompare (canon a) (canon b) = pyCompare a b :=
  pyCompare_canon_aux (sizeOf a) a b (Nat.le_refl _)

theorem pyLeB_canon (a b : Json) : pyLeB (canon a) (canon b) = pyLeB a b := by
  rw [pyLeB, pyLeB, pyCompare_canon]

theorem comparableAll_canon (x : Json) (ys : List Json) :
    comparableAll (canon x) (canonList ys) = comparableAll x ys := by
  induction ys with
  | nil => rfl
  | cons y t ih => rw [canonList, comparableAll, comparableAll, pyCompare_canon, ih]

theorem pairwiseComp_canon (xs : List Json) :
    pairwiseComp (canonList xs) = pairwiseComp xs := by
  induction xs with
  | nil => rfl
  | cons x t ih => rw [canonList, pairwiseComp, pairwiseComp, comparableAll_canon, ih]

theorem sortByLe_pyLeB_canon (xs : List Json) :
    sortByLe pyLeB (canonList xs) = canonList (sortByLe pyLeB xs) := by
  rw [canonList_eq_map, canonList_eq_map]
  exact sortByLe_map pyLeB_canon xs

theorem canonList_map_keep {f : α → Json} (h : ∀ a, canon (f a) = f a)
    (l : List α) : canonList (l.map f) = l.map f := by
  rw [canonList_eq_map, List.map_map]
  exact List.map_congr_left (fun a _ => h a)

theorem pySortedRequired_canon (j : Json) :
    pySortedRequired (canon j) = (pySortedRequired j).map canonList := by
  cases j with
  | null => rfl
  | bool b => rfl
  | int n => rfl
  | str s =>
      calc pySortedRequired (canon (.str s))
          = Except.ok ((sortByLe charLeB s.data).map
              (fun c => Json.str (String.mk [c]))) := rfl
        _ = Except.ok (canonList ((sortByLe charLeB s.data).map
              (fun c => Json.str (String.mk [c])))) := by
            rw [@canonList_map_keep Char (fun c => Json.str (String.mk [c]))
              (fun c => rfl)]
        _ = (pySortedRequired (.str s)).map canonList := rfl
  | arr xs =>
      rw [canon, pySortedRequired, pySortedRequired, pairwiseComp_canon]
      by_cases hc : pairwiseComp xs = true
      · rw [if_pos hc, if_pos hc, Except.map, sortByLe_pyLeB_canon]
      · rw [if_neg hc, if_neg hc]; rfl
  | obj kvs =>
      rw [canon_obj, pySortedRequired, pySortedRequired, Except.map]
      rw [canonList_map_keep (fun s => rfl)]
      have : sortByLe strLe (alistKeys (canonEntries kvs)) =
          sortByLe strLe (alistKeys kvs) := sorted_keys_canonEntries kvs
      rw [this]

theorem pyEq_str_canon (s : String) (e : Json) :
    pyEq (.str s) (canon e) = pyEq (.str s) e := by
  cases e <;> simp [canon, pyEq, numVal]

theorem any_pyEq_str_canon (s : String) (allowed : List Json) :
    (canonList allowed).any (fun e => pyEq (.str s) e) =
      allowed.any (fun e => pyEq (.str s) e) := by
  induction allowed with
  | nil => rfl
  | cons x t ih => rw [canonList, List.any_cons, List.any_cons, pyEq_str_canon, ih]

theorem alistKeys_canonEntries_perm (kvs : List (String × Json)) :
    (alistKeys (canonEntries kvs)).Perm (alistKeys kvs) :=
  canonEntries_keys_perm kvs

theorem requiredKeyIssues_canon (dkvs : List (String × Json)) (path : String)
    (key : Json) :
    requiredKeyIssues (canonEntries dkvs) path (canon key) =
      requiredKeyIssues dkvs path key := by
  cases key with
  | arr xs => rfl
  | obj kvs => rfl
  | null => rfl
  | bool b => rfl
  | int n => rfl
  | str s =>
      rw [canon, requiredKeyIssues, requiredKeyIssues]
      simp only [contains_congr_perm (alistKeys_canonEntries_perm dkvs) s]

theorem requiredLoop_canon (dkvs : List (String × Json)) (path : String)
    (keys : List Json) :
    requiredLoop (canonEntries dkvs) path (canonList keys) =
      requiredLoop dkvs path keys := by
  induction keys with
  | nil => rfl
  | cons key rest ih =>
      rw [canonList, requiredLoop, requiredLoop, requiredKeyIssues_canon, ih]

theorem additionalLoop_canon (props d d' : List (String × Json)) (path : String)
    (keys : List String) :
    additionalLoop (canonEntries props) d' path keys =
      additionalLoop props d path keys := by
  induction keys with
  | nil => rfl
  | cons key rest ih =>
      rw [additionalLoop, additionalLoop]
      rw [contains_congr_perm (alistKeys_canonEntries_perm props) key, ih]

theorem getD_map_canon (o : Option Json) :
    (o.map canon).getD (.arr []) = canon (o.getD (.arr [])) := by
  cases o <;> rfl

theorem sorted_alistKeys_canonEntries (kvs : List (String × Json)) :
    sortByLe strLe (alistKeys (canonEntries kvs)) =
      sortByLe strLe (alistKeys kvs) :=
  sorted_keys_canonEntries kvs

theorem additionalLoop_dkvs_irrel (props d d' : List (String × Json))
    (path : String) (keys : List String) :
    additionalLoop props d' path keys = additionalLoop props d path keys := by
  induction keys with
  | nil => rfl
  | cons key rest ih =>
      rw [additionalLoop, additionalLoop]
      by_cases hc : (alistKeys props).contains key = true
      · rw [if_pos hc, if_pos hc, ih]
      · rw [if_neg hc, if_neg hc, ih]

theorem nodup_of_lookup {kvs : List (String × Json)} {k : String} {v : Json}
    (hvals : ∀ p ∈ kvs, jsonNodupRec p.2 = true)
    (h : alistLookup kvs k = some v) : jsonNodupRec v = true :=
  hvals (k, v) (alistLookup_mem h)

theorem validateWalk_canon_aux : ∀ (n : Nat) (schema : List (String × Json)),
    sizeOf schema ≤ n → ∀ (data : Json) (path : String),
    jsonNodupRec (.obj schema) = true → jsonNodupRec data = true →
    validateWalk (canonEntries schema) (canon data) path =
      validateWalk schema data path := by
  intro n
  induction n with
  | zero =>
      intro schema h
      cases schema <;> simp at h
  | succ k ih =>
      intro schema hsz data path hs hd
      obtain ⟨hkeys, hvals⟩ := jsonNodupRec_obj hs
      rw [validateWalk.eq_def]
      rw [validateWalk.eq_def]
      simp only [typeIs_canonEntries hkeys]
      by_cases hobj : typeIs schema "object" = true
      · rw [if_pos hobj, if_pos hobj]
        cases data with
        | obj dkvs =>
            obtain ⟨hdk, hdv⟩ := jsonNodupRec_obj hd
            rw [canon_obj]
            rw [alistLookup_canonEntries hkeys]
            rw [getD_map_canon, pySortedRequired_canon]
            cases hps : pySortedRequired ((alistLookup schema "required").getD (.arr [])) with
            | error e => rfl
            | ok reqKeys =>
                dsimp only [Except.map]
                rw [requiredLoop_canon]
                cases hrl : requiredLoop dkvs path reqKeys with
                | error e => rfl
                | ok reqIssues =>
                    rw [alistLookup_canonEntries hkeys]
                    cases hp : alistLookup schema "properties" with
                    | none =>
                        dsimp only [Option.map]
                        rw [sorted_alistKeys_canonEntries]
                        rw [additionalLoop_dkvs_irrel [] dkvs (canonEntries dkvs) path]
                    | some v =>
                        dsimp only [Option.map]
                        cases v with
                        | obj props =>
                            rw [canon_obj]
                            dsimp only []
                            simp only [sorted_alistKeys_canonEntries]
                            obtain ⟨hpk, hpv⟩ := jsonNodupRec_obj (nodup_of_lookup hvals hp)
                            have hpsz : sizeOf props < sizeOf schema := by
                              have h1 := alistLookup_sizeOf hp
                              simp at h1
                              omega
                            have hpl : ∀ keys,
                                propsLoop (canonEntries props) (canonEntries dkvs) path keys =
                                  propsLoop props dkvs path keys := by
                              intro keys
                              induction keys with
                              | nil => rw [propsLoop, propsLoop]
                              | cons key rest ihk =>
                                  rw [propsLoop, propsLoop]
                                  rw [alistLookup_canonEntries hpk]
                                  cases hc : alistLookup props key with
                                  | none => exact ihk
                                  | some cv =>
                                      cases cv with
                                      | obj ckvs =>
                                          dsimp only [Option.map]
                                          rw [canon_obj]
                                          rw [alistLookup_canonEntries hdk]
                                          cases hdl : alistLookup dkvs key with
                                          | none => exact ihk
                                          | some dval =>
                                              dsimp only [Option.map]
                                              have hcsz : sizeOf ckvs ≤ k := by
                                                have h1 := alistLookup_sizeOf hc
                                                simp at h1
                                                omega
                                              rw [ih ckvs hcsz dval (path ++ "." ++ key)
                                                (nodup_of_lookup hpv hc) (nodup_of_lookup hdv hdl)]
                                              cases validateWalk ckvs dval (path ++ "." ++ key) with
                                              | error e => rfl
                                              | ok ci => rw [ihk]
                                      | null => exact ihk
                                      | bool b => exact ihk
                                      | int m => exact ihk
                                      | str t => exact ihk
                                      | arr ys => exact ihk
                            rw [hpl]
                            cases propsLoop props dkvs path (sortByLe strLe (alistKeys props)) with
                            | error e => rfl
                            | ok childIssues =>
                                rw [additionalLoop_canon props dkvs (canonEntries dkvs) path]
                        | null => rfl
                        | bool b => rfl
                        | int m => rfl
                        | str t => rfl
                        | arr ys => rfl
        | null => rfl
        | bool b => rfl
        | int m => rfl
        | str s => rfl
        | arr xs => rfl
      · rw [if_neg hobj, if_neg hobj]
        by_cases hstr : typeIs schema "string" = true
        · rw [if_pos hstr, if_pos hstr]
          cases data with
          | str s =>
              rw [alistLookup_canonEntries hkeys]
              rw [alistLookup_canonEntries hkeys]
              rw [alistLookup_canonEntries hkeys]
              cases hv1 : alistLookup schema "minLength" <;>
                try (rename_i v1; cases v1)
              all_goals
                (cases hv2 : alistLookup schema "maxLength" <;>
                  try (rename_i v2; cases v2))
              all_goals
                (cases hv3 : alistLookup schema "enum" <;>
                  try (rename_i v3; cases v3))
              all_goals first
                | rfl
                | (dsimp only [Option.map]; simp only [canon]
                   rw [any_pyEq_str_canon])
          | null => rfl
          | bool b => rfl
          | int m => rfl
          | obj kvs => rfl
          | arr xs => rfl
        · rw [if_neg hstr, if_neg hstr]
          by_cases hnum : typeIs schema "number" = true
          · rw [if_pos hnum, if_pos hnum]
            cases data <;> rfl
          · rw [if_neg hnum, if_neg hnum]
            by_cases hint : typeIs schema "integer" = true
            · rw [if_pos hint, if_pos hint]
              cases data <;> rfl
            · rw [if_neg hint, if_neg hint]
              by_cases hboo : typeIs schema "boolean" = true
              · rw [if_pos hboo, if_pos hboo]
                cases data <;> rfl
              · rw [if_neg hboo, if_neg hboo]
                by_cases hnul : typeIs schema "null" = true
                · rw [if_pos hnul, if_pos hnul]
                  cases data <;> rfl
                · rw [if_neg hnul, if_neg hnul]
                  by_cases harr : typeIs schema "array" = true
                  · rw [if_pos harr, if_pos harr]
                    cases data with
                    | arr xs =>
                        rw [alistLookup_canonEntries hkeys]
                        cases hi : alistLookup schema "items" with
                        | none => rfl
                        | some v =>
                            cases v with
                            | obj ickvs =>
                                dsimp only [Option.map]
                                rw [canon_obj]
                                have hisz : sizeOf ickvs ≤ k := by
                                  have h1 := alistLookup_sizeOf hi
                                  simp at h1
                                  omega
                                have hil : ∀ (es : List Json),
                                    (∀ e ∈ es, jsonNodupRec e = true) → ∀ idx,
                                    itemsLoop (canonEntries ickvs) (canonList es) path idx =
                                      itemsLoop ickvs es path idx := by
                                  intro es
                                  induction es with
                                  | nil =>
                                      intro _ idx
                                      rw [canonList, itemsLoop, itemsLoop]
                                  | cons e rest ihe =>
                                      intro hes idx
                                      rw [canonList, itemsLoop, itemsLoop]
                                      rw [ih ickvs hisz e
                                        (path ++ "[" ++ toString idx ++ "]")
                                        (nodup_of_lookup hvals hi)
                                        (hes e (List.mem_cons_self e rest))]
                                      cases validateWalk ickvs e
                                          (path ++ "[" ++ toString idx ++ "]") with
                                      | error er => rfl
                                      | ok ci =>
                                          rw [ihe
                                            (fun w hw => hes w (List.mem_cons_of_mem e hw))
                                            (idx + 1)]
                                exact hil xs (jsonNodupRec_arr hd) 0
                            | null => rfl
                            | bool b => rfl
                            | int m => rfl
                            | str t => rfl
                            | arr ys => rfl
                    | null => rfl
                    | bool b => rfl
                    | int m => rfl
                    | str s => rfl
                    | obj kvs => rfl
                  · rw [if_neg harr, if_neg harr]

theorem validateWalk_canon {schema : List (String × Json)} {data : Json}
    (path : String) (hs : jsonNodupRec (.obj schema) = true)
    (hd : jsonNodupRec data = true) :
    validateWalk (canonEntries schema) (canon data) path =
      validateWalk schema data path :=
  validateWalk_canon_aux (sizeOf schema) schema (Nat.le_refl _) data path hs hd

theorem schemaValidate_ok_elim {schema : List (String × Json)} {data : Json}
    {res : ValidateResult} (h : schemaValidate schema data = .ok (.ok res)) :
    ∃ issues, validateWalk schema data "$" = .ok issues ∧
      res.issues = sortedIssues issues ∧
      res.ok = (sortedIssues issues).isEmpty ∧
      res.issue_count = (sortedIssues issues).length := by
  rw [schemaValidate] at h
  split at h
  · simp at h
  · split at h
    · simp at h
    · split at h
      · simp at h
      · rename_i issues heq
        simp at h
        refine ⟨issues, heq, ?_, ?_, ?_⟩ <;> rw [← h]

/-- C3: for every `validate(schema, data)` call that reaches the recursive
walk and returns a result (no uncaught `TypeError`), the returned issue list
is sorted lexicographically by `(path, code, message)` and re-sorting it is a
no-op; and two runs over logically-equal schema and data — equal as JSON
values once every dict's entries are put in canonical order, i.e. differing
only in dict insertion/iteration order — produce identical results (same
issue list, same `ok`, same count).  The `jsonNodupRec` hypotheses record
that the association lists stand for Python dicts, which cannot hold
duplicate keys. -/
theorem claim_C3 (schema schema' : List (String × Json)) (data data' : Json)
    (res res' : ValidateResult)
    (hs : jsonNodupRec (.obj schema) = true)
    (hs' : jsonNodupRec (.obj schema') = true)
    (hd : jsonNodupRec data = true)
    (hd' : jsonNodupRec data' = true)
    (hcs : canon (.obj schema) = canon (.obj schema'))
    (hcd : canon data = canon data')
    (h1 : schemaValidate schema data = .ok (.ok res))
    (h2 : schemaValidate schema' data' = .ok (.ok res')) :
    (res.issues.Pairwise (fun a b => issueLe a b = true) ∧
      sortedIssues res.issues = res.issues) ∧ res = res' := by
  obtain ⟨is1, hw1, hri1, hro1, hrc1⟩ := schemaValidate_ok_elim h1
  obtain ⟨is2, hw2, hri2, hro2, hrc2⟩ := schemaValidate_ok_elim h2
  have hpw : (sortedIssues is1).Pairwise (fun a b => issueLe a b = true) :=
    sortByLe_pairwise (fun x _ y _ => issueLe_total x y)
      (fun x y z _ _ _ hxy hyz => issueLe_trans hxy hyz)
  have hcanonE : canonEntries schema = canonEntries schema' := by
    rw [canon_obj, canon_obj] at hcs
    exact Json.obj.inj hcs
  have hww : validateWalk schema data "$" = validateWalk schema' data' "$" := by
    rw [← validateWalk_canon "$" hs hd, ← validateWalk_canon "$" hs' hd',
      hcanonE, hcd]
  have hiseq : is1 = is2 :=
    Except.ok.inj (hw1.symm.trans (hww.trans hw2))
  refine ⟨⟨?_, ?_⟩, ?_⟩
  · rw [hri1]
    exact hpw
  · rw [hri1]
    exact sortByLe_of_pairwise hpw
  · have e1 : res.issues = res'.issues := by rw [hri1, hri2, hiseq]
    have e2 : res.ok = res'.ok := by rw [hro1, hro2, hiseq]
    have e3 : res.issue_count = res'.issue_count := by rw [hrc1, hrc2, hiseq]
    cases res
    cases res'
    simp_all

/-- Witness for C3: the schemas `{"type": "string", "minLength": 3}` and
`{"minLength": 3, "type": "string"}` differ only in dict entry order; on the
data `"hi"` both runs return the same sorted single-issue result. -/
theorem claim_C3_witness :
    (([⟨"$", "MIN_LENGTH", "Minimum length 3."⟩] :
        List Issue).Pairwise (fun a b => issueLe a b = true) ∧
      sortedIssues [⟨"$", "MIN_LENGTH", "Minimum length 3."⟩] =
        [⟨"$", "MIN_LENGTH", "Minimum length 3."⟩]) ∧
    ({ ok := false, issues := [⟨"$", "MIN_LENGTH", "Minimum length 3."⟩],
       issue_count := 1 } : ValidateResult) =
    { ok := false, issues := [⟨"$", "MIN_LENGTH", "Minimum length 3."⟩],
      issue_count := 1 } := by
  have hrun1 : schemaValidate [("type", .str "string"), ("minLength", .int 3)]
      (.str "hi") = .ok (.ok
        { ok := false, issues := [⟨"$", "MIN_LENGTH", "Minimum length 3."⟩],
          issue_count := 1 }) := by
    simp [schemaValidate, schemaSize, dumps, dumpsStrLit, escapeString,
      escapeChar, MAX_DATA_LENGTH, unsupVal, unsupValEntries, svAllowed,
      pyTruthy, validateWalk, typeIs, alistLookup, sortedIssues, sortByLe,
      insertLe]
    decide
  have hrun2 : schemaValidate [("minLength", .int 3), ("type", .str "string")]
      (.str "hi") = .ok (.ok
        { ok := false, issues := [⟨"$", "MIN_LENGTH", "Minimum length 3."⟩],
          issue_count := 1 }) := by
    simp [schemaValidate, schemaSize, dumps, dumpsStrLit, escapeString,
      escapeChar, MAX_DATA_LENGTH, unsupVal, unsupValEntries, svAllowed,
      pyTruthy, validateWalk, typeIs, alistLookup, sortedIssues, sortByLe,
      insertLe]
    decide
  exact claim_C3 [("type", .str "string"), ("minLength", .int 3)]
    [("minLength", .int 3), ("type", .str "string")]
    (.str "hi") (.str "hi") _ _
    (by simp [jsonNodupRec, jsonNodupObj, nodupStrKeys])
    (by simp [jsonNodupRec, jsonNodupObj, nodupStrKeys])
    (by simp [jsonNodupRec])
    (by simp [jsonNodupRec])
    (by simp [canon, canonObjList, canonEntries, sortByLe, insertLe,
      pairKeyLe, strLe, strLt, charListLt])
    rfl hrun1 hrun2
